import Mathlib

/-!
# C (large-C): build cache and build/execute pipeline of `C.c`

A shallow embedding of `src/C.c`.  The C globals become the record `Globals`,
the cache root `<root_dir>/cache` becomes the list of its directory entries in
`readdir` order, and everything the program learns from the operating system
(results of `stat`, `mkdir`, `fork`/`exec`/`waitpid`, the clock) is read from
the record `Env`.  Paths are written relative to `root_dir`.
-/

namespace LargeC

/-! ## Data model -/

/-- C string without its terminating NUL, as the list of its byte values. -/
abbrev CStr := List Nat

/-- String literal of the C source as a `CStr` (the literals used are ASCII). -/
def lit (s : String) : CStr := s.data.map Char.toNat

/-- Regular file inside a directory: name and content bytes. -/
structure File where
  name : CStr
  data : List Nat
  deriving DecidableEq

/-- Entry of a directory as seen through `readdir` and `stat`.  `is_dir` says
that `stat` succeeds and `S_ISDIR(st.st_mode)` holds; `files` are the regular
files found inside when the entry is a directory (the pipeline itself only
ever puts regular files there: `source.c`, `a.out`, `SPECS`). -/
structure Dirent where
  d_name : CStr
  is_dir : Bool
  st_mtime : Int
  files : List File
  deriving DecidableEq

/-- Listing of `<root_dir>/cache` in the order `readdir` returns it. -/
abbrev Cache := List Dirent

/-- The C globals of `C.c` (lines 52-69).  `store_dir` holds the slot name
below `<root_dir>/cache/`, `temp_dir` the name below `<root_dir>/tmp/`;
`spec` holds the bytes written so far into `char spec[65536]`.  The strings
of `gcc` and `lopts` are kept by value; `dangling` records that one of these
vectors holds a pointer into a token buffer of an `#option` line, which line
642 frees (`free(buf)`), so that the vector must not be read any more. -/
structure Globals where
  store_dir : Option CStr
  temp_dir : Option CStr
  src_lines : List CStr
  oneliner : Bool
  use_debugger : Bool
  use_main : Bool
  use_plusplus : Bool
  keep_files : Bool
  show_disassembly : Bool
  gcc : List CStr
  lopts : List CStr
  spec : List Nat
  spec_size : Int
  dangling : Bool
  deriving DecidableEq

/-- The value of `sizeof(spec)`. -/
def SPEC_CAPACITY : Nat := 65536

/-- Default of the macro `FILES_PER_CACHEDIR`. -/
def FILES_PER_CACHEDIR : Nat := 128

/-- Macro `BASE` of `build_store_dir`. -/
def BASE : Nat := 65521

/-! ## `add_spec` -/

/-- Function `add_spec(ptr, size)` with `bytes` the `size` bytes at `ptr`: nothing once
`spec_size` is -1; sets `spec_size` to -1 when `sizeof(spec) < spec_size + size`;
else copies the bytes at offset `spec_size` and advances `spec_size`. -/
def add_spec (g : Globals) (bytes : List Nat) : Globals :=
  if g.spec_size = -1 then g
  else if (SPEC_CAPACITY : Int) < g.spec_size + (bytes.length : Int) then
    { g with spec_size := -1 }
  else
    { g with spec := g.spec.take g.spec_size.toNat ++ bytes,
             spec_size := g.spec_size + (bytes.length : Int) }

/-- Bytes of a C string including the terminating NUL
(`add_spec(s, strlen(s) + 1)`). -/
def with_nul (s : CStr) : List Nat := s ++ [0]

/-! ## `build_store_dir` -/

/-- The `for` loop of `build_store_dir` over the bytes `spec[n]`, with
`unsigned long` arithmetic of `w` bits. -/
def store_sums (w : Nat) : List Nat → Nat → Nat → Nat × Nat
  | [], s1, s2 => (s1, s2)
  | b :: bs, s1, s2 =>
    let s1n := ((s1 + b % 256) % 2 ^ w) % BASE
    let s2n := ((s2 + s1n) % 2 ^ w) % BASE
    store_sums w bs s1n s2n

/-- The bytes `spec[0 .. spec_size-1]` the loop `for (n = 0; n < spec_size; n++)`
visits (none when `spec_size` is -1). -/
def spec_bytes (g : Globals) : List Nat := g.spec.take g.spec_size.toNat

/-- The value `(s2 << 16) + s1` printed by `build_store_dir`. -/
def store_key (w : Nat) (g : Globals) : Nat :=
  let s := store_sums w (spec_bytes g) 1 0
  ((s.2 * 2 ^ 16) % 2 ^ w + s.1) % 2 ^ w

/-- One lower-case hexadecimal digit. -/
def hex_digit (d : Nat) : Nat := if d < 10 then 48 + d else 87 + d

/-- The text `sprintf("%08lx", key)` produces for a key below `2 ^ 32` (which
the key of `build_store_dir` always is): eight digits, zero padded. -/
def hex8 (key : Nat) : CStr :=
  [7, 6, 5, 4, 3, 2, 1, 0].map (fun i => hex_digit (key / 16 ^ i % 16))

/-- Function `build_store_dir`: sets `store_dir` to the slot named after the key. -/
def build_store_dir (w : Nat) (g : Globals) : Globals :=
  { g with store_dir := some (hex8 (store_key w g)) }

/-! ## Cache directory operations -/

/-- The entry of the cache root named `name`, if any. -/
def lookup (cache : Cache) (name : CStr) : Option Dirent :=
  cache.find? (fun e => decide (e.d_name = name))

/-- Content of the regular file `fname` inside a directory entry. -/
def file_data (e : Dirent) (fname : CStr) : Option (List Nat) :=
  (e.files.find? (fun f => decide (f.name = fname))).map File.data

/-- Result of `fopen("<store_dir>/SPECS", "rb")`: the content of the file when
the slot is a directory holding a file `SPECS`, else `none` (NULL). -/
def fopen_specs (cache : Cache) (store_dir : CStr) : Option (List Nat) :=
  match lookup cache store_dir with
  | none => none
  | some e => if e.is_dir then file_data e (lit "SPECS") else none

/-- Function `check_specs` (lines 290-309).  With `0 <= spec_size` the function reads
`spec_size` bytes (`fread`), asks for end of file (`fgetc(fp) == EOF`) and
compares with `memcmp`.  With `spec_size == -1` the count converts to
`SIZE_MAX`: `fread` copies the whole file into `comp_spec[65536]`, which
overruns the buffer for a longer file (`none`: undefined behaviour), and
otherwise returns fewer than `SIZE_MAX` items, so `equal` stays 0. -/
def check_specs (cache : Cache) (store_dir : CStr) (g : Globals) : Option Bool :=
  match fopen_specs cache store_dir with
  | none => some false
  | some content =>
    if g.spec_size < 0 then
      if content.length ≤ SPEC_CAPACITY then some false else none
    else
      let n := g.spec_size.toNat
      let comp_spec := content.take n
      some (decide (comp_spec.length = n) && decide (content.drop n = []) &&
            decide (g.spec.take n = comp_spec.take n))

/-- Function `remove_dir(path)` for a path below the cache root: nothing when `opendir`
fails (no directory of that name); else every file inside is unlinked and the
directory removed. -/
def remove_dir (cache : Cache) (name : CStr) : Cache :=
  cache.filter (fun e => !(e.is_dir && decide (e.d_name = name)))

/-- Function `utimes(store_dir, NULL)`: the entry of that name gets the current time. -/
def utimes (cache : Cache) (name : CStr) (now : Int) : Cache :=
  cache.map (fun e => if e.d_name = name then { e with st_mtime := now } else e)

/-- One pass of the `readdir` loop of `update_cache` (lines 256-283) over the
entries still to come, with the loop variables `oldest_dir`, `oldest_mtime` and
`num_files`.  `none`: `readdir` returned NULL and nothing was removed in this
pass.  `some (victim, more)`: `++num_files >= FILES_PER_CACHEDIR` held,
`remove_dir(victim)` is called, and `more` is the result of the following
`readdir(d) != NULL`. -/
def scan (cap : Nat) : List Dirent → Option CStr → Int → Nat → Option (CStr × Bool)
  | [], _, _, _ => none
  | e :: rest, oldest_dir, oldest_mtime, num_files =>
    if e.d_name = lit "." ∨ e.d_name = lit ".." then
      scan cap rest oldest_dir oldest_mtime num_files
    else if e.is_dir then
      let newer := oldest_dir.isNone || decide (e.st_mtime < oldest_mtime)
      let od := if newer then e.d_name else oldest_dir.getD e.d_name
      let om := if newer then e.st_mtime else oldest_mtime
      if cap ≤ num_files + 1 then some (od, !rest.isEmpty)
      else scan cap rest (some od) om (num_files + 1)
    else
      scan cap rest oldest_dir oldest_mtime num_files

/-- The passes of `update_cache`: after a removal with more entries to come
the scan restarts on the rewound directory (`rewinddir`), else the loop ends.
Returns the final listing and, in order, every removed name together with
the listing at the moment of its removal.  `fuel` bounds the number of
passes. -/
def update_cache_loop (cap : Nat) : Nat → Cache → Cache × List (CStr × Cache)
  | 0, cache => (cache, [])
  | fuel + 1, cache =>
    match scan cap cache none 0 0 with
    | none => (cache, [])
    | some (victim, more) =>
      if more then
        let r := update_cache_loop cap fuel (remove_dir cache victim)
        (r.1, (victim, cache) :: r.2)
      else (remove_dir cache victim, [(victim, cache)])

/-- Function `update_cache` (lines 244-288) on the listing of the cache root.  Every
pass but the last removes a directory, so `length + 1` passes are enough
(`update_cache_loop_fuel`). -/
def update_cache (cache : Cache) : Cache :=
  (update_cache_loop FILES_PER_CACHEDIR (cache.length + 1) cache).1

/-- The removals `update_cache` performs, in order, each with the listing at
the moment of the removal. -/
def evictions (cache : Cache) : List (CStr × Cache) :=
  (update_cache_loop FILES_PER_CACHEDIR (cache.length + 1) cache).2

/-- Listing with the new entry `e` at place `pos` (at the end when `pos` is
beyond the end). -/
def insert_at (cache : Cache) (pos : Nat) (e : Dirent) : Cache :=
  cache.take pos ++ e :: cache.drop pos

/-- Function `rename(temp_dir, store_dir)` seen from the cache root: succeeds when no
entry of that name exists, or when it is an empty directory (which is
replaced); fails when the name is taken by a non-empty directory or by
something that is not a directory.  `pos` is the place the new entry takes in
`readdir` order. -/
def rename (cache : Cache) (pos : Nat) (ws : Dirent) (store_dir : CStr) : Cache × Bool :=
  match lookup cache store_dir with
  | none => (insert_at cache pos { ws with d_name := store_dir }, true)
  | some e =>
    if e.is_dir ∧ e.files = [] then
      (insert_at (remove_dir cache store_dir) pos { ws with d_name := store_dir }, true)
    else (cache, false)

/-- One commit of a finished build: the workspace directory `ws` (holding
`source.c`, `a.out` and `SPECS`, its modification time being the recency
marker), the key of its slot, and the place the slot takes in `readdir`
order. -/
structure Commit where
  pos : Nat
  ws : Dirent
  key : Nat

/-- The commit of lines 703-707: `update_cache`, then
`rename(temp_dir, store_dir)`.  Returns the listing and whether the rename
succeeded. -/
def commit (c : Cache) (k : Commit) : Cache × Bool :=
  rename (update_cache c) k.pos k.ws (hex8 k.key)

/-- The listing after the commits `ks`, one after another. -/
def commit_all : Cache → List Commit → Cache
  | c, [] => c
  | c, k :: ks => commit_all (commit c k).1 ks

/-- Whether every rename of the commits `ks` succeeds. -/
def all_renamed : Cache → List Commit → Bool
  | _, [] => true
  | c, k :: ks => (commit c k).2 && all_renamed (commit c k).1 ks

/-- The cache entry a successful commit creates. -/
def entry_of (k : Commit) : Dirent := { k.ws with d_name := hex8 k.key }

/-! ## Command line -/

/-- How `parse_args` leaves the program: `cmd_error` (exit status 255 after
`cleanup`), `exit(0)` from `usage` and `show_version`, or the call
`cmd_error("%s:%s: %s cannot be used in file\n", file, line, option)` of
`assert_cmdline` (line 198), which hands the `int line` to a `%s` conversion:
undefined behaviour inside `vfprintf`, before `cleanup` is reached. -/
inductive Abort
  | error
  | quit
  | undefined
  deriving DecidableEq

/-- Function `sa_concat(x, y)`. -/
def sa_concat (x : List CStr) (y : CStr) : List CStr := x ++ [y]

/-- Function `sa_merge(x, y)`. -/
def sa_merge (x y : List CStr) : List CStr := x ++ y

/-- The return of `parse_args` after its loop (lines 495-498): with a file
given, a remaining argument is an error. -/
def parse_end (in_file : Bool) (g : Globals) (argv : List CStr) :
    Except (Abort × Globals) (Globals × List CStr) :=
  if in_file ∧ argv ≠ [] then .error (.error, g) else .ok (g, argv)

/-- Function `parse_args(argv, file, line)` (lines 435-499); `in_file` is `file != NULL`.
Returns the globals as changed by the options and the remaining arguments, or,
when the program is left from inside, how it is left and the globals at that
moment.  With a file, `assert_cmdline` ends in undefined behaviour, and the
argument that `-c` or `-l` takes from the next token is a pointer into the
token buffer of the line (`dangling`). -/
def parse_args (in_file : Bool) :
    List CStr → Globals → Except (Abort × Globals) (Globals × List CStr)
  | [], g => parse_end in_file g []
  | arg :: rest, g =>
    if arg.head? ≠ some 45 then parse_end in_file g (arg :: rest)
    else if arg = lit "-" then parse_end in_file g (arg :: rest)
    else if arg = lit "--" then parse_end in_file g rest
    else if arg.take 2 = lit "-c" ∨ arg.take 2 = lit "-l" then
      if arg.drop 2 = [] then
        match rest with
        | [] => .error (.error, g)
        | opt :: rest2 =>
          if arg.take 2 = lit "-c" then
            parse_args in_file rest2
              { g with gcc := sa_concat g.gcc opt, dangling := g.dangling || in_file }
          else
            parse_args in_file rest2
              { g with lopts := sa_concat g.lopts opt, dangling := g.dangling || in_file }
      else
        if arg.take 2 = lit "-c" then
          parse_args in_file rest { g with gcc := sa_concat g.gcc (45 :: arg.drop 2) }
        else parse_args in_file rest { g with lopts := sa_concat g.lopts (45 :: arg.drop 2) }
    else if arg = lit "-d" then
      if in_file then .error (.undefined, g)
      else parse_args in_file rest
        { g with gcc := sa_concat g.gcc (lit "-g"), use_debugger := true }
    else if arg = lit "-e" then
      if in_file then .error (.undefined, g)
      else
        match rest with
        | [] => .error (.error, g)
        | expr :: rest2 =>
          if g.oneliner then .error (.error, g)
          else parse_args in_file rest2
            { g with src_lines := sa_concat (sa_concat g.src_lines expr) (lit ";\n"),
                     oneliner := true }
    else if arg.take 2 = lit "-i" then
      if in_file then .error (.undefined, g)
      else parse_args in_file rest
        { g with src_lines := sa_concat (sa_concat (sa_concat g.src_lines
            (lit "#include \x22")) (arg.drop 2)) (lit "\x22\n") }
    else if arg = lit "-k" then parse_args in_file rest { g with keep_files := true }
    else if arg = lit "-m" then parse_args in_file rest { g with use_main := true }
    else if arg = lit "-p" then
      parse_args in_file rest { g with use_main := true, use_plusplus := true }
    else if arg = lit "-S" then
      parse_args in_file rest
        { g with gcc := sa_concat g.gcc (lit "-S"), show_disassembly := true }
    else if arg = lit "-h" ∨ arg = lit "--help" then
      if in_file then .error (.undefined, g) else .error (.quit, g)
    else if arg = lit "--version" then .error (.quit, g)
    else .error (.error, g)

/-- The function `isspace` in the C locale. -/
def isspace (c : Nat) : Bool := decide (c = 32) || (decide (9 ≤ c) && decide (c ≤ 13))

/-- Loop of `split_tokens` with the token being read in `cur`. -/
def split_tokens_aux : List Nat → CStr → List CStr
  | [], cur => if cur = [] then [] else [cur]
  | c :: cs, cur =>
    if isspace c then
      if cur = [] then split_tokens_aux cs [] else cur :: split_tokens_aux cs []
    else split_tokens_aux cs (cur ++ [c])

/-- Function `split_tokens(line)`: the maximal runs of non-space bytes. -/
def split_tokens (line : CStr) : List CStr := split_tokens_aux line []

/-! ## Processes, environment and program state -/

/-- What `call_proc` observes of the process it spawns. -/
inductive Proc
  | exited (status : Nat)
  | signaled
  | exec_failed
  | fork_failed
  deriving DecidableEq

/-- How the invocation ends: `code n` is `exit(n)` or `return n` from `main`;
`execv` says that `execv` succeeded on the cached artifact, so the process
goes on as that program; `undefined` says that the C code ran into undefined
behaviour: `spec_size == -1` used as a byte count outside the bounds of its
buffers, the `%s` conversion of an `int` in `assert_cmdline`, or a compiler
command line read through a pointer into a freed token buffer. -/
inductive Exit
  | code (n : Nat)
  | execv (exec_file : CStr) (child_argv : List CStr)
  | undefined
  deriving DecidableEq

/-- The observable steps of an invocation, in the order of the source. -/
inductive Event
  | check_specs (store_dir : CStr) (equal : Bool)
  | execv (exec_file : CStr) (child_argv : List CStr) (ok : Bool)
  | remove_store_dir (store_dir : CStr)
  | make_temp_dir
  | compile (gcc : List CStr) (result : Proc)
  | run (child_argv : List CStr) (result : Proc)
  | save_specs
  | update_cache
  | rename (store_dir : CStr) (ok : Bool)
  deriving DecidableEq

/-- Everything one invocation learns from the operating system. -/
structure Env where
  /-- Width of `unsigned long` in bits. -/
  ulong_bits : Nat
  /-- The call `stat(path, &st)` of line 574: the object bytes of `st.st_size`
  and of `st.st_mtime` when it succeeds. -/
  stat : CStr → Option (List Nat × List Nat)
  /-- The clock. -/
  now : Int
  /-- Whether `execv` of an existing cached `a.out` succeeds. -/
  execv_ok : Bool
  /-- The strings behind the pointers that follow the NULL terminator of
  `main`'s argument vector, up to the next NULL.  In the process image that
  `execve` sets up these are the environment strings (`envp`). -/
  envp : List CStr
  /-- Value of the `rep`-th call of `rand()` in `make_temp_dir`. -/
  rand : Nat → Nat
  /-- Whether the `rep`-th `mkdir` of `make_temp_dir` succeeds. -/
  mkdir_ok : Nat → Bool
  /-- Whether `fopen(c_file, "wt")` succeeds. -/
  c_file_ok : Bool
  /-- The lines `get_line` reads from standard input. -/
  stdin : List CStr
  /-- For a path, `none` when `fopen(file, "rt")` fails, else the lines
  `get_line` reads from it. -/
  source : CStr → Option (List CStr)
  /-- What `call_proc` observes of the compiler. -/
  cc : Proc
  /-- The file the compiler writes as its output, if it writes one. -/
  cc_out : Option (List Nat)
  /-- What `call_proc` observes of the artifact once it could be started. -/
  child : Proc
  /-- Place a renamed workspace takes in the `readdir` order of the cache root. -/
  rename_pos : Nat
  /-- Whether `setup_dir` returns (it ends in `cmd_error` otherwise). -/
  setup_ok : Bool

/-- The C globals together with the part of the file system the program
works on: the listing of the cache root and the directory `temp_dir` while it
exists, plus the log of the steps taken so far. -/
structure State where
  g : Globals
  cache : Cache
  temp : Option Dirent
  log : List Event

/-- An ended invocation. -/
abbrev Outcome := Exit × State

/-- Appends an event to the log. -/
def State.note (s : State) (e : Event) : State := { s with log := s.log ++ [e] }

/-- Function `cleanup` (lines 126-133): `remove_dir(temp_dir)` unless `keep_files`. -/
def cleanup (s : State) : State :=
  if !s.g.keep_files then
    if s.g.temp_dir ≠ none then { s with temp := none } else s
  else s

/-- Function `cmd_error` (lines 179-193): `cleanup()` and `exit(255)`. -/
def cmd_error (s : State) : Outcome := (Exit.code 255, cleanup s)

/-- Function `call_proc` (lines 325-352) given what the spawned process did.  A failed
`execvp` makes the forked child run `cmd_error`, that is `cleanup()` and
`exit(255)`, which the parent then reads as exit status 255. -/
def call_proc (result : Proc) (s : State) : Except Outcome (Nat × State) :=
  match result with
  | .fork_failed => .error (cmd_error s)
  | .exec_failed => .ok (255, cleanup s)
  | .signaled => .error (cmd_error s)
  | .exited status => .ok (status, s)

/-- Macro `MAX_TRIES` of `make_temp_dir`. -/
def MAX_TRIES : Nat := 1000

/-- The `for` loop of `make_temp_dir` from try `rep` on, `left` tries left:
the name of the directory the first successful `mkdir` creates. -/
def make_temp_dir_loop (env : Env) : (left : Nat) → (rep : Nat) → Option CStr
  | 0, _ => none
  | left + 1, rep =>
    if env.mkdir_ok rep then some (hex8 (env.rand rep))
    else make_temp_dir_loop env left (rep + 1)

/-- Function `make_temp_dir` (lines 202-222). -/
def make_temp_dir (env : Env) (s : State) : Except Outcome State :=
  match make_temp_dir_loop env MAX_TRIES 0 with
  | none => .error (cmd_error s)
  | some name =>
    let dir : Dirent := { d_name := name, is_dir := true, st_mtime := env.now, files := [] }
    let g : Globals := { s.g with temp_dir := some name }
    .ok ({ s with g := g, temp := some dir }.note Event.make_temp_dir)

/-- The directory with the file `fname` created or replaced. -/
def put_file (d : Dirent) (fname : CStr) (data : List Nat) : Dirent :=
  { d with files :=
      d.files.filter (fun f => !decide (f.name = fname)) ++ [{ name := fname, data := data }] }

/-- Writes (creates or replaces) the file `fname` in the workspace. -/
def write_temp (s : State) (fname : CStr) (data : List Nat) : State :=
  match s.temp with
  | none => s
  | some d => { s with temp := some (put_file d fname data) }

/-- Function `save_specs` (lines 311-323): `cmd_error` when `SPECS` cannot be created
(the workspace is gone); `fwrite(spec, 1, spec_size, fp)` reads beyond `spec`
when `spec_size` is -1 (`Exit.undefined`). -/
def save_specs (s : State) : Except Outcome State :=
  match s.temp with
  | none => .error (cmd_error s)
  | some _ =>
    if s.g.spec_size < 0 then .error (Exit.undefined, write_temp s (lit "SPECS") [])
    else .ok ((write_temp s (lit "SPECS") (spec_bytes s.g)).note Event.save_specs)

/-! ## `main` -/

/-- The first element of `src_lines` (lines 548-562). -/
def HEADER : CStr :=
  lit ("#define __LARGE_C__ 0x00000500\n#ifdef __cplusplus\nextern \x22C\x22 \x7b\n#endif\n" ++
    "#include <stdio.h>\n#include <stdlib.h>\n#ifdef __cplusplus\n\x7d\n" ++
    "#include <iostream>\nusing namespace std;\n#endif\n\n__LARGE_C_PREFIX__\n")

/-- The globals after lines 545-562 (all others are zero-initialised). -/
def init_globals : Globals :=
  { store_dir := none, temp_dir := none, src_lines := sa_concat [] HEADER,
    oneliner := false, use_debugger := false, use_main := false, use_plusplus := false,
    keep_files := false, show_disassembly := false,
    gcc := sa_concat (sa_concat [] (lit "gcc")) (lit "-I."), lopts := [],
    spec := [], spec_size := 0, dangling := false }

/-- Lines 565-581 on the arguments after the program name: parse the options,
add every consumed argument to the spec and determine the cache slot.  Returns
the globals and the remaining arguments (`argv` after the block). -/
def determine_cache_dir (env : Env) (argv : List CStr) :
    Except (Abort × Globals) (Globals × List CStr) :=
  match parse_args false argv init_globals with
  | .error a => .error a
  | .ok (g, new_argv) =>
    let g1 := (argv.take (argv.length - new_argv.length)).foldl
      (fun acc a => add_spec acc (with_nul a)) g
    if !g1.keep_files && (g1.oneliner || !new_argv.isEmpty) then
      if g1.oneliner then .ok (build_store_dir env.ulong_bits g1, new_argv)
      else
        match new_argv with
        | [] => .ok (g1, new_argv)
        | path :: _ =>
          match env.stat path with
          | some (st_size, st_mtime) =>
            let g2 := add_spec (add_spec (add_spec g1 (with_nul path)) st_size) st_mtime
            .ok (build_store_dir env.ulong_bits g2, new_argv)
          | none => .ok (g1, new_argv)
    else .ok (g1, new_argv)

/-- Path of the cached artifact, `<store_dir>/a.out`. -/
def cached_exec_file (store_dir : CStr) : CStr := lit "/cache/" ++ store_dir ++ lit "/a.out"

/-- Whether the slot holds a file `a.out`. -/
def has_a_out (cache : Cache) (store_dir : CStr) : Bool :=
  match lookup cache store_dir with
  | none => false
  | some e => e.is_dir && (file_data e (lit "a.out")).isSome

/-- The strings `sa_merge(child_argv, argv + 1)` of line 589 reads from
`argv + 1` on.  When `argv` holds a string first, these are the strings after
it.  When `argv` points at the NULL terminator (one-liner without user
arguments) `argv + 1` points beyond the argument vector, and `sa_merge` reads
what follows in memory up to the next NULL: the environment strings. -/
def argv_plus_1 (env : Env) (argv : List CStr) : List CStr :=
  match argv with
  | [] => env.envp
  | _ :: rest => rest

/-- Lines 583-594, "use cache if possible".  `argv` is the argument vector
left by `determine_cache_dir`.  `.error` ends the invocation (`execv`
succeeded, or undefined behaviour in `check_specs`); `.ok` goes on to the
build. -/
def use_cache (env : Env) (s : State) (argv : List CStr) : Except Outcome State :=
  match s.g.store_dir with
  | none => .ok s
  | some d =>
    match check_specs s.cache d s.g with
    | none => .error (Exit.undefined, s)
    | some false => .ok (s.note (Event.check_specs d false))
    | some true =>
      let s1 := { s with cache := utimes s.cache d env.now }.note (Event.check_specs d true)
      let exec_file := cached_exec_file d
      let child_argv := sa_merge (sa_concat [] exec_file) (argv_plus_1 env argv)
      let ok := has_a_out s1.cache d && env.execv_ok
      let s2 := s1.note (Event.execv exec_file child_argv ok)
      if ok then .error (Exit.execv exec_file child_argv, s2)
      else .ok ({ s2 with cache := remove_dir s2.cache d }.note (Event.remove_store_dir d))

/-- The state in which the use of the cache ends, whether the process then
goes on as the cached artifact or goes on to the build. -/
def after_use_cache (env : Env) (s : State) (argv : List CStr) : State :=
  match use_cache env s argv with
  | .ok t => t
  | .error o => o.2

/-- Appends to `source.c` in the workspace (`fputs(..., src_fp)`). -/
def fputs_src (s : State) (bytes : List Nat) : State :=
  match s.temp with
  | none => s
  | some d => write_temp s (lit "source.c") ((file_data d (lit "source.c")).getD [] ++ bytes)

/-- Lines 645-648: the line, after `// ` when it is commented out. -/
def write_line (comment_out : Bool) (line : CStr) (s : State) : State :=
  fputs_src (if comment_out then fputs_src s (lit "// ") else s) line

/-- The loop over the lines of the source (lines 628-649); `line_no` counts
the lines read before.  A line `#option ...` is handed to `parse_args`; when
that ends in the undefined behaviour of `assert_cmdline`, the process ends
there, without `cleanup`. -/
def source_loop : List CStr → Nat → State → Except Outcome State
  | [], _, s => .ok s
  | line :: lines, line_no, s =>
    if line_no + 1 = 1 ∧ line.take 2 = lit "#!" then
      source_loop lines (line_no + 1) (write_line true line s)
    else if line.head? = some 35 then
      match split_tokens (line.drop 1) with
      | tok :: toks =>
        if tok = lit "option" then
          match parse_args true toks s.g with
          | .error (.error, g) => .error (cmd_error { s with g := g })
          | .error (.quit, g) => .error (Exit.code 0, { s with g := g })
          | .error (.undefined, g) => .error (Exit.undefined, { s with g := g })
          | .ok (g, _) =>
            source_loop lines (line_no + 1) (write_line true line { s with g := g })
        else source_loop lines (line_no + 1) (write_line false line s)
      | [] => source_loop lines (line_no + 1) (write_line false line s)
    else source_loop lines (line_no + 1) (write_line false line s)

/-- Lines 596-659, "prepare files": the workspace, `source.c` from `src_lines`
and, unless `oneliner`, from the source file or standard input.  Returns the
state and `argv` as advanced past the source file argument. -/
def prepare_files (env : Env) (s : State) (argv : List CStr) :
    Except Outcome (State × List CStr) :=
  match make_temp_dir env s with
  | .error o => .error o
  | .ok s1 =>
    if !env.c_file_ok then .error (cmd_error s1)
    else
      let s2 := write_temp { s1 with g := { s1.g with src_lines := [] } } (lit "source.c")
        s1.g.src_lines.flatten
      let body : Except Outcome (State × List CStr) :=
        if s2.g.oneliner then .ok (s2, argv)
        else
          match argv with
          | [] => (source_loop env.stdin 0 s2).map (fun t => (fputs_src t (lit "\n"), []))
          | a :: rest =>
            if a = lit "-" then
              (source_loop env.stdin 0 s2).map (fun t => (fputs_src t (lit "\n"), rest))
            else
              match env.source a with
              | none => .error (cmd_error s2)
              | some lines =>
                (source_loop lines 0 (fputs_src s2 (lit "# 1 \x22" ++ a ++ lit "\x22 1\n"))).map
                  (fun t => (fputs_src t (lit "\n"), rest))
      body.map (fun p => (fputs_src p.1 (lit "__LARGE_C_SUFFIX__\n"), p.2))

/-- Path of the file `fname` in the workspace. -/
def temp_path (g : Globals) (fname : CStr) : CStr :=
  lit "/tmp/" ++ g.temp_dir.getD [] ++ lit "/" ++ fname

/-- The compiler command line put together in lines 661-676. -/
def gcc_argv (g : Globals) : List CStr :=
  let gcc0 := if g.use_plusplus then lit "g++" :: g.gcc.drop 1 else g.gcc
  let gcc1 :=
    if g.use_main then
      sa_concat (sa_concat gcc0 (lit "-D__LARGE_C_PREFIX__=")) (lit "-D__LARGE_C_SUFFIX__=")
    else
      sa_concat (sa_concat gcc0 (lit "-D__LARGE_C_PREFIX__=int main(int argc, char** argv) \x7b"))
        (lit "-D__LARGE_C_SUFFIX__=; return 0; \x7d")
  let gcc2 := sa_concat (sa_concat gcc1 (lit "-o"))
    (if g.show_disassembly then lit "-" else temp_path g (lit "a.out"))
  sa_merge (sa_concat gcc2 (temp_path g (lit "source.c"))) g.lopts

/-- The output file of the compiler: when the compiler exits and writes an
output file, the file is `a.out` in the workspace, unless `-S` sends the output
to standard output (`-o -`). -/
def compiler_output (env : Env) (s : State) : State :=
  match env.cc, env.cc_out with
  | .exited _, some data =>
    if s.g.show_disassembly then s else write_temp s (lit "a.out") data
  | _, _ => s

/-- Lines 661-685, "compile": a non-zero status of the compiler ends the
invocation with that status after `cleanup`, and so does `-S` with status 0.
When the command line holds a pointer into a freed buffer (`dangling`),
`call_proc` reads freed memory: undefined behaviour. -/
def compile (env : Env) (s : State) : Except Outcome State :=
  if s.g.dangling then .error (Exit.undefined, s)
  else
    let s1 := { s with g := { s.g with gcc := gcc_argv s.g } }.note
      (Event.compile (gcc_argv s.g) env.cc)
    match call_proc env.cc (compiler_output env s1) with
    | .error o => .error o
    | .ok (ret, s3) =>
      if ret ≠ 0 then .error (Exit.code ret, cleanup s3)
      else if s3.g.show_disassembly then .error (Exit.code 0, cleanup s3)
      else .ok s3

/-- The argument vector of the freshly built artifact (lines 688-693). -/
def child_argv (g : Globals) (argv : List CStr) : List CStr :=
  sa_merge (sa_concat (if g.use_debugger then sa_concat [] (lit "gdb") else [])
    (temp_path g (lit "a.out"))) argv

/-- Lines 687-695, "execute".  Without the debugger `execvp` fails when the
workspace holds no `a.out`. -/
def execute (env : Env) (s : State) (argv : List CStr) : Except Outcome (Nat × State) :=
  let runnable :=
    s.g.use_debugger ||
      (match s.temp with
       | none => false
       | some d => (file_data d (lit "a.out")).isSome)
  let result := if runnable then env.child else Proc.exec_failed
  call_proc result (s.note (Event.run (child_argv s.g argv) result))

/-- Lines 697-710: `cleanup` without a slot; else `save_specs`, `update_cache`
and `rename(temp_dir, store_dir)`, with `cleanup` when the rename fails.
`ret` is the status of the artifact, returned from `main`. -/
def publish (env : Env) (s : State) (ret : Nat) : Outcome :=
  match s.g.store_dir with
  | none => (Exit.code ret, cleanup s)
  | some d =>
    match save_specs s with
    | .error o => o
    | .ok s1 =>
      let s2 := { s1 with cache := update_cache s1.cache }.note Event.update_cache
      match s2.temp with
      | none => (Exit.code ret, cleanup (s2.note (Event.rename d false)))
      | some ws =>
        let r := rename s2.cache env.rename_pos ws d
        if r.2 then
          (Exit.code ret, { s2 with cache := r.1, temp := none }.note (Event.rename d true))
        else (Exit.code ret, cleanup (s2.note (Event.rename d false)))

/-- The part of `main` from the compiler on (lines 661-710), for the state
and the arguments that `prepare_files` returned. -/
def from_compile (env : Env) (s : State) (argv : List CStr) : Outcome :=
  match compile env s with
  | .error o => o
  | .ok s2 =>
    match execute env s2 argv with
    | .error o => o
    | .ok (ret, s3) => publish env s3 ret

/-- The build after the cache was not used (lines 596-710). -/
def build (env : Env) (s : State) (argv : List CStr) : Outcome :=
  match prepare_files env s argv with
  | .error o => o
  | .ok (s1, argv1) => from_compile env s1 argv1

/-- Function `main` (lines 538-711) for the argument vector `argv` (program name
first) on the cache listing `cache`. -/
def main (env : Env) (cache : Cache) (argv : List CStr) : Outcome :=
  let s0 : State := { g := init_globals, cache := cache, temp := none, log := [] }
  if !env.setup_ok then cmd_error s0
  else
    match determine_cache_dir env (argv.drop 1) with
    | .error (.error, g) => cmd_error { s0 with g := g }
    | .error (.quit, g) => (Exit.code 0, { s0 with g := g })
    | .error (.undefined, g) => (Exit.undefined, { s0 with g := g })
    | .ok (g, args) =>
      match use_cache env { s0 with g := g } args with
      | .error o => o
      | .ok s1 => build env s1 args


/-! ## Concrete inputs -/

/-- An environment in which every system call succeeds: the compiler writes
an artifact and exits with 0, the artifact exits with 2; the environment of
the process is the one string `HOME=/root`. -/
def env_ok : Env :=
  { ulong_bits := 64, stat := fun _ => none, now := 100, execv_ok := true,
    envp := [lit "HOME=/root"], rand := fun _ => 7, mkdir_ok := fun _ => true,
    c_file_ok := true, stdin := [], source := fun _ => none, cc := .exited 0,
    cc_out := some [127, 69, 76, 70], child := .exited 2, rename_pos := 0, setup_ok := true }

/-- The command line `C -e "return 2;"`, without user arguments. -/
def argv_e0 : List CStr := [lit "C", lit "-e", lit "return 2;"]

/-- The command line `C -e "return 2;" foo bar`. -/
def argv_e : List CStr := [lit "C", lit "-e", lit "return 2;", lit "foo", lit "bar"]

/-- The globals `determine_cache_dir` computes for `argv_e`. -/
def g_e : Globals :=
  { store_dir := some (lit "1c4403c0"), temp_dir := none,
    src_lines := [HEADER, lit "return 2;", lit ";\n"], oneliner := true,
    use_debugger := false, use_main := false, use_plusplus := false, keep_files := false,
    show_disassembly := false, gcc := [lit "gcc", lit "-I."], lopts := [],
    spec := with_nul (lit "-e") ++ with_nul (lit "return 2;"), spec_size := 13,
    dangling := false }

/-- A cache entry for `argv_e`, as a build of it publishes. -/
def entry_e : Dirent :=
  { d_name := lit "1c4403c0", is_dir := true, st_mtime := 50,
    files := [{ name := lit "SPECS", data := with_nul (lit "-e") ++ with_nul (lit "return 2;") },
              { name := lit "a.out", data := [127, 69, 76, 70] }] }

/-- The compiler command line of the build of `argv_e` in `env_ok`. -/
def gcc_e : List CStr :=
  [lit "gcc", lit "-I.", lit "-D__LARGE_C_PREFIX__=int main(int argc, char** argv) \x7b",
   lit "-D__LARGE_C_SUFFIX__=; return 0; \x7d", lit "-o", lit "/tmp/00000007/a.out",
   lit "/tmp/00000007/source.c"]

/-- The command line `C -e <expression of 65533 bytes>`, whose spec needs
3 + 65534 bytes. -/
def argv_big : List CStr := [lit "C", lit "-e", List.replicate 65533 97]

/-- A cache root with 129 directories; the one `readdir` returns last is the
oldest. -/
def cache_129 : Cache :=
  (List.range 128).map (fun i =>
    { d_name := hex8 i, is_dir := true, st_mtime := (i : Int) + 2, files := [] }) ++
  [{ d_name := hex8 128, is_dir := true, st_mtime := 1, files := [] }]

/-- A cache root with no entry but `.` and `..`. -/
def cache_empty : Cache :=
  [{ d_name := lit ".", is_dir := true, st_mtime := 0, files := [] },
   { d_name := lit "..", is_dir := true, st_mtime := 0, files := [] }]

/-- A run of 130 commits with the keys 0..129 at the times 1..130. -/
def commits_130 : List Commit :=
  (List.range 130).map (fun (i : Nat) =>
    { pos := 0,
      ws := { d_name := hex8 7, is_dir := true, st_mtime := Int.ofNat i + 1,
              files := [{ name := lit "SPECS", data := [i % 256] }] },
      key := i })

/-- An entry that occupies the slot of `argv_e` with another spec. -/
def entry_other : Dirent :=
  { d_name := lit "1c4403c0", is_dir := true, st_mtime := 50,
    files := [{ name := lit "SPECS", data := [1] },
              { name := lit "a.out", data := [127, 69, 76, 70] }] }

/-- Globals whose spec buffer holds the three bytes of `-e` and its NUL. -/
def g_small : Globals := { g_e with store_dir := none, spec := [45, 101, 0], spec_size := 3 }

/-! ## Predicates and auxiliary functions of the statements -/

/-- The part of `main` an event belongs to: 0 the use of the cache, 1 the
preparation of the workspace, 2 the compiler, 3 the artifact, 4 the
publication. -/
def Event.stage : Event → Nat
  | .check_specs _ _ => 0
  | .execv _ _ _ => 0
  | .remove_store_dir _ => 0
  | .make_temp_dir => 1
  | .compile _ _ => 2
  | .run _ _ => 3
  | .save_specs => 4
  | .update_cache => 4
  | .rename _ _ => 4

/-- The log `l1` continues `l0` with events that satisfy `P`. -/
def Appends (P : Event → Prop) (l0 l1 : List Event) : Prop :=
  ∃ l, l1 = l0 ++ l ∧ ∀ e ∈ l, P e

/-- The globals `parse_args` never writes are the same in `g` and `g2`. -/
def kept (g g2 : Globals) : Prop :=
  g2.store_dir = g.store_dir ∧ g2.temp_dir = g.temp_dir ∧ g2.spec = g.spec ∧
    g2.spec_size = g.spec_size

/-- Both ways out of `parse_args` leave the globals it never writes as in `g`. -/
def parse_kept (g : Globals) : Except (Abort × Globals) (Globals × List CStr) → Prop
  | .ok (g2, _) => kept g g2
  | .error (_, g2) => kept g g2

/-- Invariant of the spec buffer: either it is disabled (`spec_size == -1`) or
`spec_size` counts the bytes written, at most `sizeof(spec)`. -/
def spec_ok (g : Globals) : Prop :=
  g.spec_size = -1 ∨
    (0 ≤ g.spec_size ∧ g.spec_size ≤ 65536 ∧ (g.spec.length : Int) = g.spec_size)

/-- Weighted byte sum: the byte at offset `i` of `n` bytes counts `n - i` times. -/
def weighted_sum : List Nat → Nat
  | [] => 0
  | b :: bs => (bs.length + 1) * b + weighted_sum bs

/-- The state `t` differs from `s` at most in the workspace and in the globals
that `parse_args` writes. -/
def Frame (s t : State) : Prop :=
  t.log = s.log ∧ t.cache = s.cache ∧ kept s.g t.g

/-- The workspace exists (as a directory). -/
def live (s : State) : Prop := ∃ d, s.temp = some d ∧ d.is_dir = true

/-- The workspace exists and holds a file named `f`. -/
def holds (s : State) (f : CStr) : Prop :=
  ∃ d, s.temp = some d ∧ d.is_dir = true ∧ (file_data d f).isSome

/-- What holds of both ways out of a step of the build that only writes the
workspace: frame, and on the way on the workspace still exists. -/
def step_ok (s : State) : Except Outcome State → Prop
  | .ok t => Frame s t ∧ (live s → live t)
  | .error o =>
    Frame s o.2 ∧ (o.1 = Exit.code 255 ∨ o.1 = Exit.code 0 ∨ o.1 = Exit.undefined)

/-- What holds of both ways out of `prepare_files`. -/
def prep_ok (s : State) : Except Outcome (State × List CStr) → Prop
  | .ok (t, _) =>
    t.log = s.log ++ [Event.make_temp_dir] ∧ t.cache = s.cache ∧
      t.g.store_dir = s.g.store_dir ∧ t.g.spec = s.g.spec ∧ t.g.spec_size = s.g.spec_size ∧
      live t ∧ t.g.temp_dir.isSome
  | .error o =>
    (o.2.log = s.log ∨ o.2.log = s.log ++ [Event.make_temp_dir]) ∧ o.2.cache = s.cache ∧
      (o.1 = Exit.code 255 ∨ o.1 = Exit.code 0 ∨ o.1 = Exit.undefined)

/-- The state `t` is a workspace freshly made from `s` and then written to. -/
def fresh (s t : State) : Prop :=
  t.log = s.log ++ [Event.make_temp_dir] ∧ t.cache = s.cache ∧
    t.g.store_dir = s.g.store_dir ∧ t.g.spec = s.g.spec ∧ t.g.spec_size = s.g.spec_size ∧
    live t ∧ t.g.temp_dir.isSome

/-- Every event in the list is of a stage of at most `k`. -/
def staged (k : Nat) (l : List Event) : Prop := ∀ e ∈ l, e.stage ≤ k

/-- What holds of both ways out of `compile`. -/
def compile_post (env : Env) (s : State) : Except Outcome State → Prop
  | .ok t =>
    env.cc = Proc.exited 0 ∧ t.log = s.log ++ [Event.compile (gcc_argv s.g) env.cc] ∧
      t.cache = s.cache ∧ t.g = { s.g with gcc := gcc_argv s.g } ∧
      t.g.show_disassembly = false ∧ (live s → live t) ∧
      (env.cc_out.isSome → live s → holds t (lit "a.out"))
  | .error o =>
    o.2.log = s.log ++ [Event.compile (gcc_argv s.g) env.cc] ∧ o.2.cache = s.cache ∧
      o.2.g = { s.g with gcc := gcc_argv s.g } ∧
      (∀ r, env.cc = Proc.exited r → r ≠ 0 → o.1 = Exit.code r) ∧
      (∀ r, env.cc = Proc.exited r → s.g.keep_files = false → s.g.temp_dir.isSome →
        o.2.temp = none) ∧
      (∀ r, env.cc = Proc.exited r → s.g.keep_files = true → live s → live o.2)

/-- Every entry of `c1` is an entry of `c0` up to its modification time: no
entry was created and no content replaced. -/
def stems (c0 c1 : Cache) : Prop :=
  ∀ e ∈ c1, ∃ e0 ∈ c0, e0.d_name = e.d_name ∧ e0.is_dir = e.is_dir ∧ e0.files = e.files

/-- The entry a successful rename puts into the slot `d`: the workspace with
its `SPECS` file. -/
def published (ws : Dirent) (g : Globals) (d : CStr) : Dirent :=
  { put_file ws (lit "SPECS") (spec_bytes g) with d_name := d }

/-- A directory never lists a name twice. -/
def distinct_names (c : Cache) : Prop := (c.map Dirent.d_name).Nodup

/-- The globals `determine_cache_dir` returns for `-e expr` when `expr` has
at least 65533 bytes: `add_spec` has set `spec_size` to -1, and
`build_store_dir` has run all the same, over no byte. -/
def g_oversized (expr : CStr) : Globals :=
  { store_dir := some (lit "00000001"), temp_dir := none,
    src_lines := [HEADER, expr, lit ";\n"], oneliner := true,
    use_debugger := false, use_main := false, use_plusplus := false, keep_files := false,
    show_disassembly := false, gcc := [lit "gcc", lit "-I."], lopts := [],
    spec := with_nul (lit "-e"), spec_size := -1, dangling := false }

/-- Whether the scan counts the entry: not `.` or `..`, and a directory. -/
def counted (e : Dirent) : Bool :=
  !(decide (e.d_name = lit ".") || decide (e.d_name = lit "..")) && e.is_dir

/-- The directories of the cache root in `readdir` order. -/
def dirs (l : Cache) : List Dirent := l.filter counted

/-- The entry `oldest_dir` names after the scan has met `e`, when it named
`acc` before: `e` replaces it when strictly older. -/
def pick (acc : Option Dirent) (e : Dirent) : Dirent :=
  match acc with
  | none => e
  | some a => if e.st_mtime < a.st_mtime then e else a

/-- The variable `oldest_dir` when the oldest entry met so far is `acc`. -/
def oldest_dir_of (acc : Option Dirent) : Option CStr := acc.map Dirent.d_name

/-- The variable `oldest_mtime` when the oldest entry met so far is `acc`. -/
def oldest_mtime_of (acc : Option Dirent) : Int := (acc.map Dirent.st_mtime).getD 0

/-- The last `n` elements of a list. -/
def lastN {α : Type} (n : Nat) (l : List α) : List α := l.drop (l.length - n)

/-- What the cache looks like after commits of the entries `es`: its
directories are the last `FILES_PER_CACHEDIR` of them, under distinct names,
and each holds files. -/
def committed (c : Cache) (es : List Dirent) : Prop :=
  (dirs c).Perm (lastN FILES_PER_CACHEDIR es) ∧ ((dirs c).map Dirent.d_name).Nodup ∧
    ∀ x ∈ dirs c, x.files ≠ []

/-- The listing `c2` is `c` as it is, or after `update_cache`, or after
`update_cache` and a successful rename of a workspace into the slot `sd`. -/
def built_from (pos : Nat) (sd : Option CStr) (c c2 : Cache) : Prop :=
  c2 = c ∨ c2 = update_cache c ∨
    ∃ d ws, sd = some d ∧ (rename (update_cache c) pos ws d).2 = true ∧
      c2 = (rename (update_cache c) pos ws d).1

/-! # Theorems -/

set_option maxRecDepth 1000000

/-! ## The log of an invocation -/

theorem appends_refl (P : Event → Prop) (l : List Event) : Appends P l l :=
  ⟨[], by simp, by simp⟩

theorem appends_note {P : Event → Prop} {l0 l1 : List Event} (h : Appends P l0 l1)
    (e : Event) (he : P e) : Appends P l0 (l1 ++ [e]) := by
  obtain ⟨l, rfl, hl⟩ := h
  refine ⟨l ++ [e], by simp, ?_⟩
  intro x hx
  rcases List.mem_append.1 hx with h1 | h1
  · exact hl x h1
  · rw [List.mem_singleton.1 h1]; exact he

theorem appends_trans {P Q R : Event → Prop} {l0 l1 l2 : List Event}
    (h1 : Appends P l0 l1) (h2 : Appends Q l1 l2)
    (hP : ∀ e, P e → R e) (hQ : ∀ e, Q e → R e) : Appends R l0 l2 := by
  obtain ⟨a, rfl, ha⟩ := h1
  obtain ⟨b, rfl, hb⟩ := h2
  refine ⟨a ++ b, by simp, ?_⟩
  intro x hx
  rcases List.mem_append.1 hx with h | h
  · exact hP x (ha x h)
  · exact hQ x (hb x h)

theorem appends_mono {P Q : Event → Prop} {l0 l1 : List Event} (h : Appends P l0 l1)
    (hPQ : ∀ e, P e → Q e) : Appends Q l0 l1 := by
  obtain ⟨a, rfl, ha⟩ := h
  exact ⟨a, rfl, fun e he => hPQ e (ha e he)⟩

theorem appends_mem {P : Event → Prop} {l0 l1 : List Event} (h : Appends P l0 l1)
    {e : Event} (he : e ∈ l1) : e ∈ l0 ∨ P e := by
  obtain ⟨a, rfl, ha⟩ := h
  rcases List.mem_append.1 he with h | h
  · exact Or.inl h
  · exact Or.inr (ha e h)

@[simp]
theorem note_log (s : State) (e : Event) : (s.note e).log = s.log ++ [e] := rfl

@[simp]
theorem note_g (s : State) (e : Event) : (s.note e).g = s.g := rfl

@[simp]
theorem note_cache (s : State) (e : Event) : (s.note e).cache = s.cache := rfl

@[simp]
theorem note_temp (s : State) (e : Event) : (s.note e).temp = s.temp := rfl

@[simp]
theorem cleanup_log (s : State) : (cleanup s).log = s.log := by
  unfold cleanup; split <;> [split; skip] <;> rfl

@[simp]
theorem cleanup_g (s : State) : (cleanup s).g = s.g := by
  unfold cleanup; split <;> [split; skip] <;> rfl

@[simp]
theorem cleanup_cache (s : State) : (cleanup s).cache = s.cache := by
  unfold cleanup; split <;> [split; skip] <;> rfl

@[simp]
theorem write_temp_log (s : State) (f : CStr) (d : List Nat) :
    (write_temp s f d).log = s.log := by
  unfold write_temp; split <;> rfl

@[simp]
theorem write_temp_g (s : State) (f : CStr) (d : List Nat) :
    (write_temp s f d).g = s.g := by
  unfold write_temp; split <;> rfl

@[simp]
theorem write_temp_cache (s : State) (f : CStr) (d : List Nat) :
    (write_temp s f d).cache = s.cache := by
  unfold write_temp; split <;> rfl

@[simp]
theorem fputs_src_log (s : State) (b : List Nat) : (fputs_src s b).log = s.log := by
  unfold fputs_src; split <;> simp

@[simp]
theorem fputs_src_g (s : State) (b : List Nat) : (fputs_src s b).g = s.g := by
  unfold fputs_src; split <;> simp

@[simp]
theorem fputs_src_cache (s : State) (b : List Nat) : (fputs_src s b).cache = s.cache := by
  unfold fputs_src; split <;> simp

@[simp]
theorem write_line_log (c : Bool) (l : CStr) (s : State) :
    (write_line c l s).log = s.log := by
  unfold write_line; split <;> simp

@[simp]
theorem write_line_g (c : Bool) (l : CStr) (s : State) :
    (write_line c l s).g = s.g := by
  unfold write_line; split <;> simp

@[simp]
theorem write_line_cache (c : Bool) (l : CStr) (s : State) :
    (write_line c l s).cache = s.cache := by
  unfold write_line; split <;> simp

theorem parse_kept_of {g g1 : Globals} {r : Except (Abort × Globals) (Globals × List CStr)}
    (h : parse_kept g1 r) (h1 : kept g g1) : parse_kept g r := by
  unfold kept at h1
  cases r with
  | ok p => cases p; simp only [parse_kept, kept] at h ⊢; simp [h, h1]
  | error p => cases p; simp only [parse_kept, kept] at h ⊢; simp [h, h1]

theorem parse_end_kept (f : Bool) (g : Globals) (a : List CStr) : parse_kept g (parse_end f g a) := by
  unfold parse_end
  split <;> simp [parse_kept, kept]

theorem ite_prop {α : Type} {P : α → Prop} {c : Prop} [Decidable c] {a b : α}
    (ha : c → P a) (hb : ¬c → P b) : P (if c then a else b) := by
  split
  · exact ha ‹_›
  · exact hb ‹_›

theorem parse_args_kept_aux (f : Bool) : ∀ (n : Nat) (argv : List CStr) (g : Globals),
    argv.length ≤ n → parse_kept g (parse_args f argv g) := by
  intro n
  induction n with
  | zero =>
    intro argv g h
    have : argv = [] := List.length_eq_zero.1 (Nat.le_zero.1 h)
    subst this
    simp [parse_args, parse_end_kept]
  | succ n ih =>
    intro argv g h
    cases argv with
    | nil => simp [parse_args, parse_end_kept]
    | cons arg rest =>
      have hr : rest.length ≤ n := by simpa using h
      cases rest with
      | nil =>
        rw [parse_args.eq_def]
        dsimp only
        repeat' first
          | exact parse_end_kept _ _ _
          | (simp [parse_kept, kept]; done)
          | exact parse_kept_of (ih _ _ hr) (by simp [kept])
          | refine ite_prop (P := parse_kept g) (fun _ => ?_) (fun _ => ?_)
      | cons opt rest2 =>
        have hr2 : rest2.length ≤ n := by simp at hr; omega
        rw [parse_args.eq_def]
        dsimp only
        repeat' first
          | exact parse_end_kept _ _ _
          | exact parse_kept_of (ih _ _ hr) (by simp [kept])
          | exact parse_kept_of (ih _ _ hr2) (by simp [kept])
          | (simp [parse_kept, kept]; done)
          | refine ite_prop (P := parse_kept g) (fun _ => ?_) (fun _ => ?_)

theorem parse_args_kept (f : Bool) (argv : List CStr) (g : Globals) :
    parse_kept g (parse_args f argv g) :=
  parse_args_kept_aux f argv.length argv g (Nat.le_refl _)

/-! ## The spec buffer -/

theorem add_spec_ok (g : Globals) (bytes : List Nat) (h : spec_ok g) :
    spec_ok (add_spec g bytes) := by
  unfold add_spec
  split
  · exact h
  · rename_i h1
    split
    · exact Or.inl rfl
    · rename_i h2
      rcases h with h | ⟨h0, _, h4⟩
      · exact absurd h h1
      · right
        simp only [SPEC_CAPACITY] at h2
        have : g.spec_size.toNat = g.spec.length := by omega
        simp only [this, List.take_length, List.length_append]
        push_cast
        omega

theorem add_spec_fields (g : Globals) (bytes : List Nat) :
    (add_spec g bytes).store_dir = g.store_dir ∧ (add_spec g bytes).temp_dir = g.temp_dir ∧
    (add_spec g bytes).keep_files = g.keep_files ∧ (add_spec g bytes).oneliner = g.oneliner ∧
    (add_spec g bytes).use_debugger = g.use_debugger := by
  unfold add_spec
  split
  · simp
  · split <;> simp

@[simp]
theorem add_spec_store_dir (g : Globals) (bytes : List Nat) :
    (add_spec g bytes).store_dir = g.store_dir := (add_spec_fields g bytes).1

@[simp]
theorem add_spec_temp_dir (g : Globals) (bytes : List Nat) :
    (add_spec g bytes).temp_dir = g.temp_dir := (add_spec_fields g bytes).2.1

@[simp]
theorem add_spec_keep_files (g : Globals) (bytes : List Nat) :
    (add_spec g bytes).keep_files = g.keep_files := (add_spec_fields g bytes).2.2.1

theorem foldl_add_spec_ok (l : List CStr) : ∀ (g : Globals), spec_ok g →
    spec_ok (l.foldl (fun acc a => add_spec acc (with_nul a)) g) := by
  induction l with
  | nil => intro g h; exact h
  | cons a l ih => intro g h; exact ih _ (add_spec_ok g _ h)

theorem foldl_add_spec_fields (l : List CStr) : ∀ (g : Globals),
    (l.foldl (fun acc a => add_spec acc (with_nul a)) g).store_dir = g.store_dir ∧
    (l.foldl (fun acc a => add_spec acc (with_nul a)) g).temp_dir = g.temp_dir ∧
    (l.foldl (fun acc a => add_spec acc (with_nul a)) g).keep_files = g.keep_files ∧
    (l.foldl (fun acc a => add_spec acc (with_nul a)) g).oneliner = g.oneliner ∧
    (l.foldl (fun acc a => add_spec acc (with_nul a)) g).use_debugger = g.use_debugger := by
  induction l with
  | nil => intro g; simp
  | cons a l ih =>
    intro g
    obtain ⟨h1, h2, h3, h4, h5⟩ := ih (add_spec g (with_nul a))
    obtain ⟨k1, k2, k3, k4, k5⟩ := add_spec_fields g (with_nul a)
    simp only [List.foldl_cons]
    exact ⟨h1.trans k1, h2.trans k2, h3.trans k3, h4.trans k4, h5.trans k5⟩

/-- What `determine_cache_dir` guarantees about the globals it returns. -/
theorem determine_cache_dir_ok (env : Env) (argv : List CStr) (g : Globals)
    (rest : List CStr) (h : determine_cache_dir env argv = .ok (g, rest)) :
    spec_ok g ∧ g.temp_dir = none ∧ (g.store_dir ≠ none → g.keep_files = false) := by
  unfold determine_cache_dir at h
  have hk := parse_args_kept false argv init_globals
  cases hp : parse_args false argv init_globals with
  | error a => rw [hp] at h; simp at h
  | ok p =>
    obtain ⟨g0, new_argv⟩ := p
    rw [hp] at h hk
    simp only [parse_kept, kept] at hk
    obtain ⟨k1, k2, k3, k4⟩ := hk
    have ok0 : spec_ok g0 := by
      right
      rw [k3, k4]
      simp [init_globals]
    have okf := foldl_add_spec_ok (argv.take (argv.length - new_argv.length)) g0 ok0
    obtain ⟨f1, f2, f3, f4, f5⟩ :=
      foldl_add_spec_fields (argv.take (argv.length - new_argv.length)) g0
    have hs0 : g0.store_dir = none := by rw [k1]; rfl
    have ht0 : g0.temp_dir = none := by rw [k2]; rfl
    dsimp only at h
    split at h
    · rename_i hc
      split at h
      · simp only [Except.ok.injEq, Prod.mk.injEq] at h
        obtain ⟨rfl, _⟩ := h
        refine ⟨okf, ?_, ?_⟩
        · simp only [build_store_dir]
          rw [f2, ht0]
        · intro _
          simp only [build_store_dir]
          simp only [Bool.and_eq_true, Bool.not_eq_true'] at hc
          exact hc.1
      · split at h
        · simp only [Except.ok.injEq, Prod.mk.injEq] at h
          obtain ⟨rfl, _⟩ := h
          exact ⟨okf, by rw [f2, ht0], fun hne => absurd (by rw [f1, hs0]) hne⟩
        · split at h
          · simp only [Except.ok.injEq, Prod.mk.injEq] at h
            obtain ⟨rfl, _⟩ := h
            refine ⟨add_spec_ok _ _ (add_spec_ok _ _ (add_spec_ok _ _ okf)), ?_, ?_⟩
            · simp only [build_store_dir, add_spec_temp_dir]
              rw [f2, ht0]
            · intro _
              simp only [build_store_dir, add_spec_keep_files]
              simp only [Bool.and_eq_true, Bool.not_eq_true'] at hc
              exact hc.1
          · simp only [Except.ok.injEq, Prod.mk.injEq] at h
            obtain ⟨rfl, _⟩ := h
            exact ⟨okf, by rw [f2, ht0], fun hne => absurd (by rw [f1, hs0]) hne⟩
    · simp only [Except.ok.injEq, Prod.mk.injEq] at h
      obtain ⟨rfl, _⟩ := h
      exact ⟨okf, by rw [f2, ht0], fun hne => absurd (by rw [f1, hs0]) hne⟩

theorem determine_cache_dir_congr (env1 env2 : Env) (argv : List CStr)
    (h1 : env2.stat = env1.stat) (h2 : env2.ulong_bits = env1.ulong_bits) :
    determine_cache_dir env2 argv = determine_cache_dir env1 argv := by
  unfold determine_cache_dir
  rw [h1, h2]

/-! ## `check_specs` -/

theorem check_specs_eq (cache : Cache) (d : CStr) (g : Globals)
    (h0 : 0 ≤ g.spec_size) (hlen : (g.spec.length : Int) = g.spec_size) :
    check_specs cache d g = some (decide (fopen_specs cache d = some (spec_bytes g))) := by
  have hn : g.spec_size.toNat = g.spec.length := by omega
  have hsb : spec_bytes g = g.spec := by
    unfold spec_bytes
    rw [hn, List.take_length]
  unfold check_specs
  cases hf : fopen_specs cache d with
  | none => simp
  | some content =>
    have hneg : ¬ g.spec_size < 0 := by omega
    simp only [hneg, if_false, hn, hsb, List.take_length, Option.some.injEq]
    rw [Bool.eq_iff_iff]
    simp only [Bool.and_eq_true, decide_eq_true_eq, List.take_take, Nat.min_self]
    constructor
    · rintro ⟨⟨_, h2⟩, h3⟩
      have hle : content.length ≤ g.spec.length := List.drop_eq_nil_iff.1 h2
      rw [List.take_of_length_le hle] at h3
      exact h3.symm
    · intro h
      subst h
      simp

/-! ## Fingerprint -/

theorem pow_ulong_ge {w : Nat} (hw : 32 ≤ w) : 2 ^ 32 ≤ 2 ^ w :=
  Nat.pow_le_pow_right (by decide) hw

theorem store_sums_closed (w : Nat) (hw : 32 ≤ w) :
    ∀ (bs : List Nat) (s1 s2 : Nat), s1 < BASE → s2 < BASE →
      store_sums w bs s1 s2 =
        ((s1 + (bs.map (· % 256)).sum) % BASE,
         (s2 + bs.length * s1 + weighted_sum (bs.map (· % 256))) % BASE) := by
  have hp := pow_ulong_ge hw
  intro bs
  induction bs with
  | nil => intro s1 s2 h1 h2; simp [store_sums, weighted_sum, Nat.mod_eq_of_lt h1, Nat.mod_eq_of_lt h2]
  | cons b bs ih =>
    intro s1 s2 h1 h2
    have hb : b % 256 < 256 := Nat.mod_lt _ (by decide)
    have hB : BASE = 65521 := rfl
    have e1 : (s1 + b % 256) % 2 ^ w = s1 + b % 256 := Nat.mod_eq_of_lt (by omega)
    have k1 : (s1 + b % 256) % BASE < BASE := Nat.mod_lt _ (by decide)
    have e2 : (s2 + (s1 + b % 256) % BASE) % 2 ^ w = s2 + (s1 + b % 256) % BASE :=
      Nat.mod_eq_of_lt (by omega)
    have k2 : (s2 + (s1 + b % 256) % BASE) % BASE < BASE := Nat.mod_lt _ (by decide)
    simp only [store_sums, e1, e2, ih _ _ k1 k2, List.map_cons, List.sum_cons, weighted_sum,
      List.length_cons, List.length_map]
    refine Prod.ext ?_ ?_
    · show _ % BASE = _ % BASE
      rw [Nat.add_mod, Nat.mod_mod, ← Nat.add_mod, Nat.add_assoc]
    · show _ % BASE = _ % BASE
      have m1 : (s1 + b % 256) % BASE ≡ s1 + b % 256 [MOD BASE] := Nat.mod_modEq _ _
      have m2 : (s2 + (s1 + b % 256) % BASE) % BASE ≡ s2 + (s1 + b % 256) [MOD BASE] :=
        (Nat.mod_modEq _ _).trans (Nat.ModEq.add_left _ m1)
      have m3 : (s2 + (s1 + b % 256) % BASE) % BASE + bs.length * ((s1 + b % 256) % BASE) +
            weighted_sum (bs.map (· % 256)) ≡
          s2 + (s1 + b % 256) + bs.length * (s1 + b % 256) +
            weighted_sum (bs.map (· % 256)) [MOD BASE] :=
        Nat.ModEq.add_right _ (Nat.ModEq.add m2 (Nat.ModEq.mul_left _ m1))
      have m4 : s2 + (s1 + b % 256) + bs.length * (s1 + b % 256) +
            weighted_sum (bs.map (· % 256)) =
          s2 + (bs.length + 1) * s1 + ((bs.length + 1) * (b % 256) +
            weighted_sum (bs.map (· % 256))) := by ring
      rw [← m4]
      exact m3

theorem weighted_sum_eq_sum : ∀ (bs : List Nat),
    weighted_sum bs = ∑ i ∈ Finset.range bs.length, (bs.length - i) * bs.getD i 0 := by
  intro bs
  induction bs with
  | nil => simp [weighted_sum]
  | cons b bs ih =>
    rw [weighted_sum, List.length_cons, Finset.sum_range_succ', ih]
    simp [Nat.add_comm]

theorem map_mod_bytes (bs : List Nat) (h : ∀ b ∈ bs, b < 256) : bs.map (· % 256) = bs := by
  induction bs with
  | nil => rfl
  | cons b bs ih =>
    simp only [List.map_cons]
    rw [ih (fun x hx => h x (List.mem_cons_of_mem _ hx)), Nat.mod_eq_of_lt (h b (List.mem_cons_self _ _))]

/-! ## Frame conditions of the build -/

theorem frame_refl (s : State) : Frame s s := ⟨rfl, rfl, rfl, rfl, rfl, rfl⟩

theorem frame_trans {s t u : State} (h1 : Frame s t) (h2 : Frame t u) : Frame s u := by
  obtain ⟨hlog, hcache, hkept⟩ := h1
  obtain ⟨hlog2, hcache2, hkept2⟩ := h2
  refine ⟨hlog2.trans hlog, hcache2.trans hcache, ?_⟩
  obtain ⟨k1, k2, k3, k4⟩ := hkept
  obtain ⟨m1, m2, m3, m4⟩ := hkept2
  exact ⟨m1.trans k1, m2.trans k2, m3.trans k3, m4.trans k4⟩

theorem frame_cleanup (s : State) : Frame s (cleanup s) :=
  ⟨cleanup_log s, cleanup_cache s, by rw [cleanup_g]; exact ⟨rfl, rfl, rfl, rfl⟩⟩

theorem frame_write_line (c : Bool) (l : CStr) (s : State) : Frame s (write_line c l s) :=
  ⟨write_line_log c l s, write_line_cache c l s, by rw [write_line_g]; exact ⟨rfl, rfl, rfl, rfl⟩⟩

theorem frame_fputs_src (s : State) (b : List Nat) : Frame s (fputs_src s b) :=
  ⟨fputs_src_log s b, fputs_src_cache s b, by rw [fputs_src_g]; exact ⟨rfl, rfl, rfl, rfl⟩⟩

theorem holds_live {s : State} {f : CStr} (h : holds s f) : live s := by
  obtain ⟨d, h1, h2, _⟩ := h
  exact ⟨d, h1, h2⟩

theorem find_filter_other (xs : List File) (f f2 : CStr) (hne : f2 ≠ f) :
    (xs.filter (fun x => !decide (x.name = f))).find? (fun x => decide (x.name = f2))
      = xs.find? (fun x => decide (x.name = f2)) := by
  induction xs with
  | nil => rfl
  | cons x xs ih =>
    by_cases hx : x.name = f
    · have hx2 : ¬ x.name = f2 := fun h => hne (h.symm.trans hx)
      rw [List.filter_cons_of_neg (by simp [hx]), List.find?_cons_of_neg _ (by simp [hx2]), ih]
    · rw [List.filter_cons_of_pos (by simp [hx])]
      by_cases hx2 : x.name = f2
      · rw [List.find?_cons_of_pos _ (by simp [hx2]), List.find?_cons_of_pos _ (by simp [hx2])]
      · rw [List.find?_cons_of_neg _ (by simp [hx2]), List.find?_cons_of_neg _ (by simp [hx2]), ih]

theorem find_filter_same (xs : List File) (f : CStr) :
    (xs.filter (fun x => !decide (x.name = f))).find? (fun x => decide (x.name = f)) = none := by
  rw [List.find?_eq_none]
  intro x hx
  have := (List.mem_filter.1 hx).2
  simpa using this

theorem file_data_written (d : Dirent) (f : CStr) (data : List Nat) :
    file_data (put_file d f data) f = some data := by
  unfold file_data put_file
  rw [List.find?_append, find_filter_same, List.find?_cons_of_pos _ (by simp)]
  rfl

theorem file_data_other (d : Dirent) (f f2 : CStr) (data : List Nat) (hne : f2 ≠ f) :
    file_data (put_file d f data) f2 = file_data d f2 := by
  unfold file_data put_file
  have hne2 : ¬ f = f2 := fun h => hne h.symm
  rw [List.find?_append, find_filter_other _ _ _ hne,
    List.find?_cons_of_neg _ (by simp [hne2]), List.find?_nil, Option.or_none]

theorem write_temp_live (s : State) (f : CStr) (d : List Nat) (h : live s) :
    live (write_temp s f d) := by
  obtain ⟨e, h1, h2⟩ := h
  exact ⟨put_file e f d, by simp only [write_temp, h1], h2⟩

theorem write_temp_holds (s : State) (f : CStr) (data : List Nat) (h : live s) :
    ∃ d, (write_temp s f data).temp = some d ∧ d.is_dir = true ∧ file_data d f = some data := by
  obtain ⟨e, h1, h2⟩ := h
  exact ⟨put_file e f data, by simp only [write_temp, h1], h2, file_data_written e f data⟩

theorem write_temp_keeps (s : State) (f f2 : CStr) (data : List Nat) (h : holds s f2) :
    holds (write_temp s f data) f2 := by
  obtain ⟨e, h1, h2, h3⟩ := h
  refine ⟨put_file e f data, by simp only [write_temp, h1], h2, ?_⟩
  by_cases hf : f2 = f
  · subst hf
    rw [file_data_written]
    rfl
  · rw [file_data_other e f f2 data hf]
    exact h3

theorem fputs_src_live (s : State) (b : List Nat) (h : live s) : live (fputs_src s b) := by
  unfold fputs_src
  split
  · exact h
  · exact write_temp_live _ _ _ h

theorem write_line_live (c : Bool) (l : CStr) (s : State) (h : live s) :
    live (write_line c l s) := by
  unfold write_line
  split
  · exact fputs_src_live _ _ (fputs_src_live _ _ h)
  · exact fputs_src_live _ _ h

theorem step_ok_of {s s1 : State} {r : Except Outcome State} (h : step_ok s1 r)
    (hf : Frame s s1) (ht : live s → live s1) : step_ok s r := by
  cases r with
  | ok t => exact ⟨frame_trans hf h.1, fun x => h.2 (ht x)⟩
  | error o => exact ⟨frame_trans hf h.1, h.2⟩

theorem source_loop_ok : ∀ (lines : List CStr) (n : Nat) (s : State),
    step_ok s (source_loop lines n s) := by
  intro lines
  induction lines with
  | nil => intro n s; exact ⟨frame_refl s, id⟩
  | cons line lines ih =>
    intro n s
    rw [source_loop.eq_def]
    dsimp only
    refine ite_prop (P := step_ok s) (fun _ => ?_) (fun _ => ?_)
    · exact step_ok_of (ih _ _) (frame_write_line _ _ _) (write_line_live _ _ _)
    refine ite_prop (P := step_ok s) (fun _ => ?_) (fun _ => ?_)
    · cases split_tokens (line.drop 1) with
      | nil => exact step_ok_of (ih _ _) (frame_write_line _ _ _) (write_line_live _ _ _)
      | cons tok toks =>
        dsimp only
        refine ite_prop (P := step_ok s) (fun _ => ?_) (fun _ => ?_)
        · have hk := parse_args_kept true toks s.g
          cases hp : parse_args true toks s.g with
          | error p =>
            obtain ⟨a, g⟩ := p
            rw [hp] at hk
            cases a with
            | error =>
              exact ⟨frame_trans (t := { s with g := g }) ⟨rfl, rfl, hk⟩ (frame_cleanup _),
                Or.inl rfl⟩
            | quit => exact ⟨⟨rfl, rfl, hk⟩, Or.inr (Or.inl rfl)⟩
            | undefined => exact ⟨⟨rfl, rfl, hk⟩, Or.inr (Or.inr rfl)⟩
          | ok p =>
            obtain ⟨g, r⟩ := p
            rw [hp] at hk
            exact step_ok_of (ih _ _)
              (frame_trans (t := { s with g := g }) ⟨rfl, rfl, hk⟩ (frame_write_line _ _ _))
              (fun x => write_line_live _ _ _ x)
        · exact step_ok_of (ih _ _) (frame_write_line _ _ _) (write_line_live _ _ _)
    · exact step_ok_of (ih _ _) (frame_write_line _ _ _) (write_line_live _ _ _)

theorem fresh_step {s t : State} (h : fresh s t) (r : Except Outcome State) (hr : step_ok t r)
    (rest : List CStr) :
    prep_ok s ((r.map (fun u => (fputs_src u (lit "\n"), rest))).map
      (fun p => (fputs_src p.1 (lit "__LARGE_C_SUFFIX__\n"), p.2))) := by
  obtain ⟨h1, h2, h3, h4, h5, h6, h7⟩ := h
  cases r with
  | error o =>
    obtain ⟨⟨a1, a2, _⟩, a4⟩ := hr
    exact ⟨Or.inr (a1.trans h1), a2.trans h2, a4⟩
  | ok u =>
    obtain ⟨⟨a1, a2, a3, a4, a5, a6⟩, a7⟩ := hr
    simp only [Except.map, prep_ok, fputs_src_log, fputs_src_cache, fputs_src_g]
    refine ⟨a1.trans h1, a2.trans h2, a3.trans h3, a5.trans h4, a6.trans h5, ?_, ?_⟩
    · exact fputs_src_live _ _ (fputs_src_live _ _ (a7 h6))
    · rw [a4]; exact h7

theorem prepare_files_ok (env : Env) (s : State) (argv : List CStr) :
    prep_ok s (prepare_files env s argv) := by
  unfold prepare_files make_temp_dir
  cases make_temp_dir_loop env MAX_TRIES 0 with
  | none =>
    exact ⟨Or.inl (cleanup_log s), cleanup_cache s, Or.inl rfl⟩
  | some name =>
    dsimp only
    split
    · refine ⟨Or.inr ?_, ?_, Or.inl rfl⟩
      · simp [cmd_error]
      · simp [cmd_error]
    · have hf : fresh s (write_temp
          { ({ s with g := { s.g with temp_dir := some name },
                      temp := some { d_name := name, is_dir := true, st_mtime := env.now,
                                     files := [] } } : State).note Event.make_temp_dir with
            g := { s.g with temp_dir := some name, src_lines := [] } }
          (lit "source.c") s.g.src_lines.flatten) := by
        refine ⟨by simp, by simp, by simp, by simp, by simp, ?_, by simp⟩
        exact write_temp_live _ _ _ ⟨_, rfl, rfl⟩
      split
      · rename_i h1
        simp only [Except.map, prep_ok, fputs_src_log, fputs_src_cache, fputs_src_g]
        obtain ⟨h1, h2, h3, h4, h5, h6, h7⟩ := hf
        exact ⟨h1, h2, h3, h4, h5, fputs_src_live _ _ h6, h7⟩
      · split
        · exact fresh_step hf _ (source_loop_ok _ _ _) _
        · split
          · exact fresh_step hf _ (source_loop_ok _ _ _) _
          · split
            · obtain ⟨h1, h2, _⟩ := hf
              refine ⟨Or.inr ?_, ?_, Or.inl rfl⟩
              · simp only [Except.map, cmd_error, cleanup_log]; exact h1
              · simp only [Except.map, cmd_error, cleanup_cache]; exact h2
            · refine fresh_step (t := fputs_src _ _) ?_ _ (source_loop_ok _ _ _) _
              obtain ⟨h1, h2, h3, h4, h5, h6, h7⟩ := hf
              exact ⟨by rw [fputs_src_log]; exact h1, by rw [fputs_src_cache]; exact h2,
                by rw [fputs_src_g]; exact h3, by rw [fputs_src_g]; exact h4,
                by rw [fputs_src_g]; exact h5, fputs_src_live _ _ h6,
                by rw [fputs_src_g]; exact h7⟩

/-! ## The steps of `main` -/

/-- The five ways through `use_cache`: no slot; undefined behaviour in
`check_specs`; `check_specs` returns 0; `check_specs` returns 1 and `execv`
succeeds; `check_specs` returns 1 and `execv` fails. -/
theorem use_cache_cases (env : Env) (s : State) (argv : List CStr) :
    (s.g.store_dir = none ∧ use_cache env s argv = .ok s) ∨
    (∃ d, s.g.store_dir = some d ∧ check_specs s.cache d s.g = none ∧
      use_cache env s argv = .error (Exit.undefined, s)) ∨
    (∃ d, s.g.store_dir = some d ∧ check_specs s.cache d s.g = some false ∧
      use_cache env s argv = .ok
        { g := s.g, cache := s.cache, temp := s.temp,
          log := s.log ++ [Event.check_specs d false] }) ∨
    (∃ d, s.g.store_dir = some d ∧ check_specs s.cache d s.g = some true ∧
      (has_a_out (utimes s.cache d env.now) d && env.execv_ok) = true ∧
      use_cache env s argv = .error
        (Exit.execv (cached_exec_file d) (cached_exec_file d :: argv_plus_1 env argv),
         { g := s.g, cache := utimes s.cache d env.now, temp := s.temp,
           log := s.log ++ [Event.check_specs d true,
             Event.execv (cached_exec_file d) (cached_exec_file d :: argv_plus_1 env argv) true] })) ∨
    (∃ d, s.g.store_dir = some d ∧ check_specs s.cache d s.g = some true ∧
      (has_a_out (utimes s.cache d env.now) d && env.execv_ok) = false ∧
      use_cache env s argv = .ok
        { g := s.g, cache := remove_dir (utimes s.cache d env.now) d, temp := s.temp,
          log := s.log ++ [Event.check_specs d true,
            Event.execv (cached_exec_file d) (cached_exec_file d :: argv_plus_1 env argv) false,
            Event.remove_store_dir d] }) := by
  cases hs : s.g.store_dir with
  | none => exact Or.inl ⟨rfl, by simp only [use_cache, hs]⟩
  | some d =>
    right
    cases hc : check_specs s.cache d s.g with
    | none => exact Or.inl ⟨d, rfl, hc, by simp only [use_cache, hs, hc]⟩
    | some b =>
      right
      cases b with
      | false => exact Or.inl ⟨d, rfl, hc, by simp only [use_cache, hs, hc, State.note]⟩
      | true =>
        right
        cases hx : (has_a_out (utimes s.cache d env.now) d && env.execv_ok) with
        | true =>
          left
          refine ⟨d, rfl, hc, hx, ?_⟩
          simp only [use_cache, hs, hc, State.note, hx, if_true, sa_merge, sa_concat,
            List.nil_append, List.singleton_append, List.append_assoc, List.cons_append]
        | false =>
          right
          refine ⟨d, rfl, hc, hx, ?_⟩
          simp only [use_cache, hs, hc, State.note, hx, Bool.false_eq_true, if_false, sa_merge,
            sa_concat, List.nil_append, List.singleton_append, List.append_assoc,
            List.cons_append]

theorem staged_append {k : Nat} {l : List Event} (h : staged k l) (e : Event)
    (he : e.stage ≤ k) : staged k (l ++ [e]) := by
  intro x hx
  rcases List.mem_append.1 hx with h1 | h1
  · exact h x h1
  · rw [List.mem_singleton.1 h1]; exact he

theorem staged_mono {k m : Nat} {l : List Event} (h : staged k l) (hkm : k ≤ m) :
    staged m l := fun e he => Nat.le_trans (h e he) hkm

/-- Both ways out of `use_cache` leave the globals and the workspace alone and
log events of the cache stage only. -/
theorem use_cache_staged (env : Env) (s : State) (argv : List CStr) (h : staged 0 s.log) :
    match use_cache env s argv with
    | .ok t => staged 0 t.log ∧ t.g = s.g ∧ t.temp = s.temp
    | .error o => staged 0 o.2.log ∧ o.2.g = s.g ∧ o.2.temp = s.temp := by
  rcases use_cache_cases env s argv with ⟨_, h1⟩ | ⟨d, _, _, h1⟩ | ⟨d, _, _, h1⟩ |
      ⟨d, _, _, _, h1⟩ | ⟨d, _, _, _, h1⟩
  all_goals rw [h1]
  · exact ⟨h, rfl, rfl⟩
  · exact ⟨h, rfl, rfl⟩
  · exact ⟨staged_append h (Event.check_specs d false) (Nat.le_refl 0), rfl, rfl⟩
  · refine ⟨?_, rfl, rfl⟩
    intro e he
    rcases List.mem_append.1 he with h2 | h2
    · exact h e h2
    · simp only [List.mem_cons, List.mem_singleton, List.not_mem_nil, or_false] at h2
      rcases h2 with rfl | rfl <;> exact Nat.le_refl 0
  · refine ⟨?_, rfl, rfl⟩
    intro e he
    rcases List.mem_append.1 he with h2 | h2
    · exact h e h2
    · simp only [List.mem_cons, List.mem_singleton, List.not_mem_nil, or_false] at h2
      rcases h2 with rfl | rfl | rfl <;> exact Nat.le_refl 0

theorem cleanup_temp_none (s : State) (hk : s.g.keep_files = false)
    (ht : s.g.temp_dir.isSome) : (cleanup s).temp = none := by
  unfold cleanup
  have : s.g.temp_dir ≠ none := by
    intro h; rw [h] at ht; simp at ht
  simp [hk, this]

theorem cleanup_keep (s : State) (hk : s.g.keep_files = true) : cleanup s = s := by
  unfold cleanup
  simp [hk]

theorem compiler_output_frame (env : Env) (s : State) :
    (compiler_output env s).log = s.log ∧ (compiler_output env s).cache = s.cache ∧
      (compiler_output env s).g = s.g ∧ (live s → live (compiler_output env s)) ∧
      (∀ r, env.cc = Proc.exited r → env.cc_out.isSome → s.g.show_disassembly = false →
        live s → holds (compiler_output env s) (lit "a.out")) := by
  unfold compiler_output
  split
  · rename_i r data h1 h2
    split
    · rename_i hd
      refine ⟨rfl, rfl, rfl, id, ?_⟩
      intro _ _ _ h
      rw [hd] at h
      simp at h
    · refine ⟨write_temp_log _ _ _, write_temp_cache _ _ _, write_temp_g _ _ _,
        write_temp_live _ _ _, ?_⟩
      intro _ _ _ _ hl
      obtain ⟨e, k1, k2, k3⟩ := write_temp_holds s (lit "a.out") data hl
      exact ⟨e, k1, k2, by rw [k3]; rfl⟩
  · rename_i hne
    refine ⟨rfl, rfl, rfl, id, ?_⟩
    intro r hr hout
    cases ho : env.cc_out with
    | none => rw [ho] at hout; simp at hout
    | some data => exact absurd ho (hne r data hr)

theorem compile_dangling (env : Env) (s : State) (hd : s.g.dangling = true) :
    compile env s = .error (Exit.undefined, s) := by
  unfold compile
  rw [if_pos hd]

theorem compile_ok (env : Env) (s : State) (hdang : s.g.dangling = false) :
    compile_post env s (compile env s) := by
  obtain ⟨f1, f2, f3, f4, f5⟩ := compiler_output_frame env
    ({ s with g := { s.g with gcc := gcc_argv s.g } }.note (Event.compile (gcc_argv s.g) env.cc))
  have hlive : live s → live (compiler_output env
      ({ s with g := { s.g with gcc := gcc_argv s.g } }.note
        (Event.compile (gcc_argv s.g) env.cc))) := fun ⟨d, h1, h2⟩ => f4 ⟨d, h1, h2⟩
  unfold compile
  rw [if_neg (by rw [hdang]; decide)]
  dsimp only
  generalize compiler_output env
    ({ s with g := { s.g with gcc := gcc_argv s.g } }.note
      (Event.compile (gcc_argv s.g) env.cc)) = s2 at f1 f2 f3 f4 f5 hlive ⊢
  simp only [note_log, note_cache, note_g] at f1 f2 f3 f5
  have hpost : ∀ (x : Nat), (∀ r, env.cc = Proc.exited r → r ≠ 0 → x = r) →
      compile_post env s (.error (Exit.code x, cleanup s2)) := by
    intro x hx
    refine ⟨by rw [cleanup_log, f1], by rw [cleanup_cache, f2], by rw [cleanup_g, f3], ?_, ?_, ?_⟩
    · intro r h1 h2
      rw [hx r h1 h2]
    · intro r _ hk ht
      exact cleanup_temp_none s2 (by rw [f3]; exact hk) (by rw [f3]; exact ht)
    · intro r _ hk hl
      rw [cleanup_keep s2 (by rw [f3]; exact hk)]
      exact hlive hl
  cases hcc : env.cc with
  | fork_failed =>
    simp only [call_proc, cmd_error]
    exact hpost 255 (fun r h => by rw [hcc] at h; cases h)
  | signaled =>
    simp only [call_proc, cmd_error]
    exact hpost 255 (fun r h => by rw [hcc] at h; cases h)
  | exec_failed =>
    simp only [call_proc]
    have : (255 : Nat) ≠ 0 := by decide
    simp only [this, ne_eq, not_false_eq_true, if_true]
    have h2 := hpost 255 (fun r h => by rw [hcc] at h; cases h)
    obtain ⟨a1, a2, a3, a4, a5, a6⟩ := h2
    refine ⟨by rw [cleanup_log]; exact a1, by rw [cleanup_cache]; exact a2,
      by rw [cleanup_g]; exact a3, ?_, ?_, ?_⟩
    · intro r h; rw [hcc] at h; cases h
    · intro r h; rw [hcc] at h; cases h
    · intro r h; rw [hcc] at h; cases h
  | exited r =>
    simp only [call_proc]
    by_cases hr : r = 0
    · subst hr
      simp only [ne_eq, not_true_eq_false, if_false]
      by_cases hd : s2.g.show_disassembly = true
      · simp only [hd, if_true]
        exact hpost 0 (fun r h hne => by rw [hcc] at h; cases h; exact absurd rfl hne)
      · simp only [hd, if_false]
        have hd2 : s2.g.show_disassembly = false := by simpa using hd
        refine ⟨hcc, by rw [f1], f2, f3, hd2, hlive, ?_⟩
        intro ho hl
        exact f5 0 hcc ho (by rw [f3] at hd2; exact hd2) ⟨hl.choose, hl.choose_spec.1, hl.choose_spec.2⟩
    · simp only [ne_eq, hr, not_false_eq_true, if_true]
      exact hpost r (fun r2 h _ => by rw [hcc] at h; cases h; rfl)

/-- The three ways through `execute`: the artifact (or the debugger) ran and
exited with status `r`; `execvp` failed in the child, which ran `cleanup` and
exited with 255; the parent ended in `cmd_error`. -/
theorem execute_cases (env : Env) (s : State) (argv : List CStr) :
    (∃ r, execute env s argv = .ok (r, s.note (Event.run (child_argv s.g argv) (Proc.exited r)))
      ∧ (s.g.use_debugger = false →
          ∃ d, s.temp = some d ∧ (file_data d (lit "a.out")).isSome)) ∨
    (execute env s argv =
      .ok (255, cleanup (s.note (Event.run (child_argv s.g argv) Proc.exec_failed)))) ∨
    (∃ res, (res = Proc.signaled ∨ res = Proc.fork_failed) ∧
      execute env s argv = .error (cmd_error (s.note (Event.run (child_argv s.g argv) res)))) := by
  unfold execute
  dsimp only
  generalize hrun : (s.g.use_debugger ||
      (match s.temp with
       | none => false
       | some d => (file_data d (lit "a.out")).isSome)) = runnable
  cases runnable with
  | false =>
    right; left
    simp [call_proc]
  | true =>
    simp only [if_true]
    cases hc : env.child with
    | exited r =>
      left
      refine ⟨r, by simp [call_proc], ?_⟩
      intro hd
      rw [hd] at hrun
      simp only [Bool.false_or] at hrun
      cases ht : s.temp with
      | none => rw [ht] at hrun; simp at hrun
      | some d => rw [ht] at hrun; exact ⟨d, rfl, hrun⟩
    | exec_failed =>
      right; left
      simp [call_proc]
    | signaled =>
      right; right
      exact ⟨Proc.signaled, Or.inl rfl, by simp [call_proc]⟩
    | fork_failed =>
      right; right
      exact ⟨Proc.fork_failed, Or.inr rfl, by simp [call_proc]⟩

/-- Either `main` ends before the compiler is called, having logged events of
the first two stages only, or it calls the compiler, on a command line
without dangling pointer, in a state `s2` that `determine_cache_dir`,
`use_cache` and `prepare_files` lead to. -/
theorem main_cases (env : Env) (cache : Cache) (argv : List CStr) :
    staged 1 (main env cache argv).2.log ∨
    ∃ g rest s1 s2 a2, env.setup_ok = true ∧
      determine_cache_dir env (argv.drop 1) = .ok (g, rest) ∧
      use_cache env { g := g, cache := cache, temp := none, log := [] } rest = .ok s1 ∧
      prepare_files env s1 rest = .ok (s2, a2) ∧ s2.g.dangling = false ∧
      main env cache argv = from_compile env s2 a2 := by
  have h0 : staged 1 [] := fun e he => by simp at he
  unfold main
  dsimp only
  by_cases hs : env.setup_ok = true
  · simp only [hs, Bool.not_true, Bool.false_eq_true, if_false]
    cases hd : determine_cache_dir env (argv.drop 1) with
    | error p =>
      obtain ⟨a, g⟩ := p
      cases a with
      | error => left; simpa [cmd_error] using h0
      | quit => left; simpa using h0
      | undefined => left; simpa using h0
    | ok p =>
      obtain ⟨g, rest⟩ := p
      dsimp only
      have hu := use_cache_staged env { g := g, cache := cache, temp := none, log := [] } rest
        (fun e he => by simp at he)
      cases hc : use_cache env { g := g, cache := cache, temp := none, log := [] } rest with
      | error o =>
        rw [hc] at hu
        left
        exact staged_mono hu.1 (Nat.zero_le 1)
      | ok s1 =>
        rw [hc] at hu
        dsimp only
        unfold build
        have hp := prepare_files_ok env s1 rest
        cases hpp : prepare_files env s1 rest with
        | error o =>
          rw [hpp] at hp
          left
          dsimp only
          rcases hp.1 with h | h
          · rw [h]; exact staged_mono hu.1 (Nat.zero_le 1)
          · rw [h]; exact staged_append (staged_mono hu.1 (Nat.zero_le 1)) _ (Nat.le_refl 1)
        | ok q =>
          obtain ⟨s2, a2⟩ := q
          rw [hpp] at hp
          cases hdg : s2.g.dangling with
          | true =>
            left
            dsimp only
            unfold from_compile
            rw [compile_dangling env s2 hdg]
            dsimp only
            rw [hp.1]
            exact staged_append (staged_mono hu.1 (Nat.zero_le 1)) _ (Nat.le_refl 1)
          | false =>
            right
            exact ⟨g, rest, s1, s2, a2, trivial, rfl, hc, hpp, hdg, rfl⟩
  · left
    have : env.setup_ok = false := by simpa using hs
    simpa [this, cmd_error] using h0

/-- The five ways through `publish`: no slot; `SPECS` cannot be created;
`spec_size` is -1; the rename succeeds; the rename fails. -/
theorem publish_cases (env : Env) (s : State) (ret : Nat) :
    (s.g.store_dir = none ∧ publish env s ret = (Exit.code ret, cleanup s)) ∨
    (∃ d, s.g.store_dir = some d ∧ s.temp = none ∧ publish env s ret = cmd_error s) ∨
    (∃ d ws, s.g.store_dir = some d ∧ s.temp = some ws ∧ s.g.spec_size < 0 ∧
      publish env s ret = (Exit.undefined, write_temp s (lit "SPECS") [])) ∨
    (∃ d ws, s.g.store_dir = some d ∧ s.temp = some ws ∧ 0 ≤ s.g.spec_size ∧
      (rename (update_cache s.cache) env.rename_pos
        (put_file ws (lit "SPECS") (spec_bytes s.g)) d).2 = true ∧
      publish env s ret = (Exit.code ret,
        { g := s.g,
          cache := (rename (update_cache s.cache) env.rename_pos
            (put_file ws (lit "SPECS") (spec_bytes s.g)) d).1,
          temp := none,
          log := s.log ++ [Event.save_specs, Event.update_cache, Event.rename d true] })) ∨
    (∃ d ws, s.g.store_dir = some d ∧ s.temp = some ws ∧ 0 ≤ s.g.spec_size ∧
      (rename (update_cache s.cache) env.rename_pos
        (put_file ws (lit "SPECS") (spec_bytes s.g)) d).2 = false ∧
      publish env s ret = (Exit.code ret,
        cleanup { g := s.g, cache := update_cache s.cache,
                  temp := some (put_file ws (lit "SPECS") (spec_bytes s.g)),
                  log := s.log ++ [Event.save_specs, Event.update_cache,
                    Event.rename d false] })) := by
  cases hs : s.g.store_dir with
  | none => exact Or.inl ⟨rfl, by simp only [publish, hs]⟩
  | some d =>
    right
    cases ht : s.temp with
    | none => exact Or.inl ⟨d, rfl, rfl, by simp only [publish, hs, save_specs, ht]⟩
    | some ws =>
      right
      by_cases hn : s.g.spec_size < 0
      · exact Or.inl ⟨d, ws, rfl, rfl, hn, by simp only [publish, hs, save_specs, ht, hn, if_true]⟩
      · right
        have h0 : 0 ≤ s.g.spec_size := by omega
        cases hr : (rename (update_cache s.cache) env.rename_pos
            (put_file ws (lit "SPECS") (spec_bytes s.g)) d).2 with
        | true =>
          left
          refine ⟨d, ws, rfl, rfl, h0, hr, ?_⟩
          simp only [publish, hs, save_specs, ht, hn, if_false, write_temp, State.note, hr,
            if_true, List.append_assoc, List.singleton_append, List.cons_append, List.nil_append]
        | false =>
          right
          refine ⟨d, ws, rfl, rfl, h0, hr, ?_⟩
          simp only [publish, hs, save_specs, ht, hn, if_false, write_temp, State.note, hr,
            Bool.false_eq_true, List.append_assoc, List.singleton_append, List.cons_append,
            List.nil_append]

/-- Function `publish` logs events of the last stage only. -/
theorem publish_appends (env : Env) (s : State) (ret : Nat) :
    Appends (fun e => 4 ≤ e.stage) s.log (publish env s ret).2.log := by
  rcases publish_cases env s ret with ⟨_, h⟩ | ⟨d, _, _, h⟩ | ⟨d, ws, _, _, _, h⟩ |
      ⟨d, ws, _, _, _, _, h⟩ | ⟨d, ws, _, _, _, _, h⟩
  all_goals rw [h]
  · simp only [cleanup_log]; exact appends_refl _ _
  · simp only [cmd_error, cleanup_log]; exact appends_refl _ _
  · simp only [write_temp_log]; exact appends_refl _ _
  · refine ⟨_, rfl, ?_⟩
    intro e he
    simp only [List.mem_cons, List.mem_singleton, List.not_mem_nil, or_false] at he
    rcases he with rfl | rfl | rfl <;> simp [Event.stage]
  · simp only [cleanup_log]
    refine ⟨_, rfl, ?_⟩
    intro e he
    simp only [List.mem_cons, List.mem_singleton, List.not_mem_nil, or_false] at he
    rcases he with rfl | rfl | rfl <;> simp [Event.stage]

/-- After the compiler, `main` logs events of the last two stages only. -/
theorem after_compile_appends (env : Env) (s : State) (argv : List CStr) :
    Appends (fun e => 3 ≤ e.stage) s.log
      (match execute env s argv with
       | .error o => o
       | .ok (ret, s3) => publish env s3 ret).2.log := by
  rcases execute_cases env s argv with ⟨r, h, _⟩ | h | ⟨res, _, h⟩
  · rw [h]
    dsimp only
    refine appends_trans (P := fun e => 3 ≤ e.stage) ?_ (publish_appends env _ r)
      (fun _ h => h) (fun _ h => Nat.le_trans (by decide) h)
    exact appends_note (appends_refl _ _) _ (by simp [Event.stage])
  · rw [h]
    dsimp only
    refine appends_trans (P := fun e => 3 ≤ e.stage) ?_ (publish_appends env _ 255)
      (fun _ h => h) (fun _ h => Nat.le_trans (by decide) h)
    rw [cleanup_log]
    exact appends_note (appends_refl _ _) _ (by simp [Event.stage])
  · rw [h]
    simp only [cmd_error, cleanup_log]
    exact appends_note (appends_refl _ _) _ (by simp [Event.stage])

/-- The log of `from_compile` on a command line without dangling pointer:
the compiler event, then events of the last two stages. -/
theorem from_compile_log (env : Env) (s : State) (argv : List CStr)
    (hdang : s.g.dangling = false) :
    ∃ l, (from_compile env s argv).2.log =
        s.log ++ Event.compile (gcc_argv s.g) env.cc :: l ∧ ∀ e ∈ l, 3 ≤ e.stage := by
  have hc := compile_ok env s hdang
  unfold from_compile
  cases hcc : compile env s with
  | error o =>
    rw [hcc] at hc
    exact ⟨[], hc.1, by simp⟩
  | ok s2 =>
    rw [hcc] at hc
    obtain ⟨l, h1, h2⟩ := after_compile_appends env s2 argv
    refine ⟨l, ?_, h2⟩
    dsimp only
    rw [h1, hc.2.1, List.append_assoc]
    rfl

/-- The build logs no event of the cache stage. -/
theorem build_appends (env : Env) (s : State) (argv : List CStr) :
    Appends (fun e => 1 ≤ e.stage) s.log (build env s argv).2.log := by
  have hp := prepare_files_ok env s argv
  unfold build
  cases hpp : prepare_files env s argv with
  | error o =>
    rw [hpp] at hp
    dsimp only
    rcases hp.1 with h | h
    · rw [h]; exact appends_refl _ _
    · rw [h]; exact appends_note (appends_refl _ _) _ (by simp [Event.stage])
  | ok q =>
    obtain ⟨s1, a1⟩ := q
    rw [hpp] at hp
    dsimp only
    cases hdg : s1.g.dangling with
    | true =>
      unfold from_compile
      rw [compile_dangling env s1 hdg]
      dsimp only
      rw [hp.1]
      exact appends_note (appends_refl _ _) _ (by simp [Event.stage])
    | false =>
      obtain ⟨l, h1, h2⟩ := from_compile_log env s1 a1 hdg
      refine ⟨Event.make_temp_dir :: Event.compile (gcc_argv s1.g) env.cc :: l, ?_, ?_⟩
      · rw [h1, hp.1, List.append_assoc]; rfl
      · intro e he
        simp only [List.mem_cons] at he
        rcases he with rfl | rfl | he
        · simp [Event.stage]
        · simp [Event.stage]
        · exact Nat.le_trans (by decide) (h2 e he)

/-! ## What the use of the cache does to the cache -/

theorem stems_refl (c : Cache) : stems c c := fun e he => ⟨e, he, rfl, rfl, rfl⟩

theorem stems_utimes (c : Cache) (d : CStr) (now : Int) : stems c (utimes c d now) := by
  intro e he
  unfold utimes at he
  obtain ⟨e0, h0, rfl⟩ := List.mem_map.1 he
  refine ⟨e0, h0, ?_⟩
  split <;> exact ⟨rfl, rfl, rfl⟩

theorem stems_remove_dir {c0 c : Cache} (h : stems c0 c) (d : CStr) :
    stems c0 (remove_dir c d) := fun e he => h e (List.mem_filter.1 he).1

theorem use_cache_stems (env : Env) (s t : State) (argv : List CStr)
    (h : use_cache env s argv = .ok t) : stems s.cache t.cache := by
  rcases use_cache_cases env s argv with ⟨_, h1⟩ | ⟨d, _, _, h1⟩ | ⟨d, _, _, h1⟩ |
      ⟨d, _, _, _, h1⟩ | ⟨d, _, _, _, h1⟩
  all_goals rw [h1] at h
  · cases h; exact stems_refl _
  · cases h
  · cases h; exact stems_refl _
  · cases h
  · cases h; exact stems_remove_dir (stems_utimes _ _ _) _

theorem staged_not_mem {k : Nat} {l : List Event} (h : staged k l) (e : Event)
    (he : k < e.stage) : e ∉ l := fun hm => absurd (h e hm) (Nat.not_le.2 he)

theorem main_eq (env : Env) (cache : Cache) (argv : List CStr) (g : Globals) (rest : List CStr)
    (hsetup : env.setup_ok = true)
    (hd : determine_cache_dir env (argv.drop 1) = .ok (g, rest)) :
    main env cache argv =
      match use_cache env { g := g, cache := cache, temp := none, log := [] } rest with
      | .error o => o
      | .ok s1 => build env s1 rest := by
  unfold main
  simp only [hsetup, Bool.not_true, Bool.false_eq_true, if_false, hd]

theorem not_execv_of_stage {e : Event} (h : 1 ≤ e.stage) (f : CStr) (a : List CStr) (ok : Bool) :
    e ≠ Event.execv f a ok := by
  intro he
  rw [he] at h
  simp [Event.stage] at h

/-! ## Lookup in the cache listing -/

theorem lookup_none_iff (c : Cache) (d : CStr) :
    lookup c d = none ↔ ∀ e ∈ c, e.d_name ≠ d := by
  unfold lookup
  rw [List.find?_eq_none]
  simp

theorem lookup_some_name {c : Cache} {d : CStr} {e : Dirent} (h : lookup c d = some e) :
    e.d_name = d ∧ e ∈ c := by
  unfold lookup at h
  have h1 := List.find?_some h
  exact ⟨by simpa using h1, List.mem_of_find?_eq_some h⟩

theorem lookup_none_of_subset {c c2 : Cache} {d : CStr} (h : lookup c d = none)
    (hsub : ∀ e ∈ c2, e ∈ c) : lookup c2 d = none := by
  rw [lookup_none_iff] at h ⊢
  exact fun e he => h e (hsub e he)

theorem lookup_insert_at (c : Cache) (pos : Nat) (e : Dirent) (d : CStr)
    (h : lookup c d = none) (he : e.d_name = d) : lookup (insert_at c pos e) d = some e := by
  rw [lookup_none_iff] at h
  unfold lookup insert_at
  rw [List.find?_append]
  have h1 : (c.take pos).find? (fun x => decide (x.d_name = d)) = none := by
    rw [List.find?_eq_none]
    intro x hx
    simpa using h x (List.mem_of_mem_take hx)
  rw [h1, List.find?_cons_of_pos _ (by simpa using he)]
  rfl

theorem lookup_utimes (c : Cache) (d : CStr) (now : Int) :
    lookup (utimes c d now) d = (lookup c d).map (fun e => { e with st_mtime := now }) := by
  unfold lookup utimes
  induction c with
  | nil => rfl
  | cons x xs ih =>
    by_cases hx : x.d_name = d
    · simp [List.find?_cons, hx]
    · simp only [List.map_cons, hx, if_false]
      rw [List.find?_cons_of_neg _ (by simpa using hx), List.find?_cons_of_neg _ (by simpa using hx)]
      exact ih

theorem remove_dir_subset (c : Cache) (d : CStr) : ∀ e ∈ remove_dir c d, e ∈ c :=
  fun _ he => (List.mem_filter.1 he).1

theorem update_cache_loop_subset (cap : Nat) : ∀ (fuel : Nat) (c : Cache),
    ∀ e ∈ (update_cache_loop cap fuel c).1, e ∈ c := by
  intro fuel
  induction fuel with
  | zero => intro c e he; exact he
  | succ n ih =>
    intro c e he
    unfold update_cache_loop at he
    split at he
    · exact he
    · split at he
      · exact remove_dir_subset _ _ _ (ih _ _ he)
      · exact remove_dir_subset _ _ _ he

theorem update_cache_subset (c : Cache) : ∀ e ∈ update_cache c, e ∈ c :=
  update_cache_loop_subset _ _ c

/-! ## Reaching the publication -/

/-- When the log of `main` holds the event of an artifact that ran and exited
with status `r`, then `main` is `publish` applied to a state `t` that the
successful steps before lead to. -/
theorem main_reach_publish (env : Env) (cache : Cache) (argv : List CStr) (a : List CStr)
    (r : Nat) (hrun : Event.run a (Proc.exited r) ∈ (main env cache argv).2.log) :
    ∃ g rest s1 t, determine_cache_dir env (argv.drop 1) = .ok (g, rest) ∧
      use_cache env { g := g, cache := cache, temp := none, log := [] } rest = .ok s1 ∧
      main env cache argv = publish env t r ∧
      t.cache = s1.cache ∧ t.g.store_dir = g.store_dir ∧ t.g.spec = g.spec ∧
      t.g.spec_size = g.spec_size ∧ live t ∧ t.g.temp_dir.isSome ∧
      (env.cc_out.isSome → holds t (lit "a.out")) ∧
      staged 3 t.log ∧ Event.run a (Proc.exited r) ∈ t.log := by
  rcases main_cases env cache argv with hst | ⟨g, rest, s1, s2, a2, _, hd, hu, hp, hdg, hm⟩
  · exact absurd hrun (staged_not_mem hst _ (by simp [Event.stage]))
  have hus := use_cache_staged env { g := g, cache := cache, temp := none, log := [] } rest
    (fun e he => by simp at he)
  rw [hu] at hus
  obtain ⟨u1, u2, _⟩ := hus
  dsimp only at u2
  have hpp := prepare_files_ok env s1 rest
  rw [hp] at hpp
  obtain ⟨p1, p2, p3, p4, p5, p6, p7⟩ := hpp
  have hs2 : staged 1 s2.log := by
    rw [p1]
    exact staged_append (staged_mono u1 (Nat.zero_le 1)) _ (Nat.le_refl 1)
  have hc := compile_ok env s2 hdg
  rw [hm] at hrun ⊢
  unfold from_compile at hrun ⊢
  cases hcr : compile env s2 with
  | error o =>
    rw [hcr] at hc hrun
    have : staged 2 o.2.log := by
      rw [hc.1]
      exact staged_append (staged_mono hs2 (by decide)) _ (Nat.le_refl 2)
    exact absurd hrun (staged_not_mem this _ (by simp [Event.stage]))
  | ok s3 =>
    rw [hcr] at hc hrun
    dsimp only at hrun ⊢
    obtain ⟨c1, c2, c3, c4, c5, c6, c7⟩ := hc
    have hs3 : staged 2 s3.log := by
      rw [c2]
      exact staged_append (staged_mono hs2 (by decide)) _ (Nat.le_refl 2)
    rcases execute_cases env s3 a2 with ⟨r2, hx, _⟩ | hx | ⟨res, hres, hx⟩
    · rw [hx] at hrun ⊢
      dsimp only at hrun ⊢
      have hmem : Event.run a (Proc.exited r) = Event.run (child_argv s3.g a2) (Proc.exited r2) := by
        rcases appends_mem (publish_appends env _ r2) hrun with h | h
        · rw [note_log] at h
          rcases List.mem_append.1 h with h | h
          · exact absurd h (staged_not_mem hs3 _ (by simp [Event.stage]))
          · exact List.mem_singleton.1 h
        · simp [Event.stage] at h
      have hr2 : r2 = r := (Proc.exited.inj (Event.run.inj hmem).2).symm
      subst hr2
      refine ⟨g, rest, s1, s3.note (Event.run (child_argv s3.g a2) (Proc.exited r2)), hd, hu,
        rfl, ?_, ?_, ?_, ?_, ?_, ?_, ?_, ?_, ?_⟩
      · rw [note_cache, c3, p2]
      · rw [note_g, c4]; dsimp only; rw [p3, u2]
      · rw [note_g, c4]; dsimp only; rw [p4, u2]
      · rw [note_g, c4]; dsimp only; rw [p5, u2]
      · obtain ⟨w, h1, h2⟩ := c6 p6
        exact ⟨w, h1, h2⟩
      · rw [note_g, c4]; exact p7
      · intro ho
        obtain ⟨w, h1, h2, h3⟩ := c7 ho p6
        exact ⟨w, h1, h2, h3⟩
      · rw [note_log]
        exact staged_append (staged_mono hs3 (by decide)) _ (Nat.le_refl 3)
      · rw [note_log, hmem]
        exact List.mem_append_right _ (List.mem_singleton.2 rfl)
    · rw [hx] at hrun
      dsimp only at hrun
      rcases appends_mem (publish_appends env _ 255) hrun with h | h
      · rw [cleanup_log, note_log] at h
        rcases List.mem_append.1 h with h | h
        · exact absurd h (staged_not_mem hs3 _ (by simp [Event.stage]))
        · simp at h
      · simp [Event.stage] at h
    · rw [hx] at hrun
      dsimp only at hrun
      simp only [cmd_error, cleanup_log, note_log] at hrun
      rcases List.mem_append.1 hrun with h | h
      · exact absurd h (staged_not_mem hs3 _ (by simp [Event.stage]))
      · rcases hres with rfl | rfl <;> simp at h

theorem published_facts (ws : Dirent) (g : Globals) (d : CStr) :
    (published ws g d).d_name = d ∧ (published ws g d).is_dir = ws.is_dir ∧
    (published ws g d).st_mtime = ws.st_mtime ∧
    file_data (published ws g d) (lit "SPECS") = some (spec_bytes g) ∧
    file_data (published ws g d) (lit "a.out") = file_data ws (lit "a.out") := by
  refine ⟨rfl, rfl, rfl, ?_, ?_⟩
  · exact file_data_written ws (lit "SPECS") _
  · exact file_data_other ws (lit "SPECS") (lit "a.out") _ (by decide)

/-- Function `publish` into a free slot: the rename succeeds and the cache gains the
published workspace. -/
theorem publish_free (env : Env) (s : State) (ret : Nat) (d : CStr) (ws : Dirent)
    (hstore : s.g.store_dir = some d) (htemp : s.temp = some ws) (hsz : 0 ≤ s.g.spec_size)
    (hfree : lookup s.cache d = none) :
    publish env s ret = (Exit.code ret,
      { g := s.g,
        cache := insert_at (update_cache s.cache) env.rename_pos (published ws s.g d),
        temp := none,
        log := s.log ++ [Event.save_specs, Event.update_cache, Event.rename d true] }) := by
  have hfree2 : lookup (update_cache s.cache) d = none :=
    lookup_none_of_subset hfree (update_cache_subset s.cache)
  have hn : ¬ s.g.spec_size < 0 := by omega
  simp only [publish, hstore, save_specs, htemp, hn, if_false, write_temp, State.note, rename,
    hfree2, if_true, List.append_assoc, List.singleton_append, List.cons_append,
    List.nil_append, published]

/-- The use of the cache on a slot that holds the current spec and an
artifact that `execv` can start: the process goes on as the cached artifact. -/
theorem use_cache_hit (env : Env) (c : Cache) (g : Globals) (rest : List CStr) (d : CStr)
    (e : Dirent) (hslot : g.store_dir = some d) (h0 : 0 ≤ g.spec_size)
    (hlen : (g.spec.length : Int) = g.spec_size)
    (hlook : lookup c d = some e) (hdir : e.is_dir = true)
    (hspecs : file_data e (lit "SPECS") = some (spec_bytes g))
    (haout : (file_data e (lit "a.out")).isSome) (hexec : env.execv_ok = true) :
    check_specs c d g = some true ∧
    use_cache env { g := g, cache := c, temp := none, log := [] } rest =
      .error (Exit.execv (cached_exec_file d) (cached_exec_file d :: argv_plus_1 env rest),
        { g := g, cache := utimes c d env.now, temp := none,
          log := [Event.check_specs d true,
            Event.execv (cached_exec_file d) (cached_exec_file d :: argv_plus_1 env rest) true] }) := by
  have hfs : fopen_specs c d = some (spec_bytes g) := by
    simp only [fopen_specs, hlook, hdir, if_true, hspecs]
  have hcs : check_specs c d g = some true := by
    rw [check_specs_eq c d g h0 hlen, hfs]; simp
  have hao : has_a_out (utimes c d env.now) d = true := by
    unfold has_a_out
    rw [lookup_utimes, hlook]
    simp only [Option.map, file_data] at haout ⊢
    simp only [hdir, Bool.true_and]
    exact haout
  refine ⟨hcs, ?_⟩
  simp only [use_cache, hslot, hcs, State.note, hao, hexec, Bool.and_self, if_true, sa_merge,
    sa_concat, List.nil_append, List.singleton_append, List.append_assoc, List.cons_append]

theorem eq_of_same_name {c : Cache} (h : distinct_names c) {e1 e2 : Dirent} (h1 : e1 ∈ c)
    (h2 : e2 ∈ c) (hn : e1.d_name = e2.d_name) : e1 = e2 :=
  List.inj_on_of_nodup_map h h1 h2 hn

theorem lookup_of_mem {c : Cache} (h : distinct_names c) {e : Dirent} (he : e ∈ c) :
    lookup c e.d_name = some e := by
  cases hl : lookup c e.d_name with
  | none =>
    rw [lookup_none_iff] at hl
    exact absurd rfl (hl e he)
  | some e2 =>
    obtain ⟨hn, hm⟩ := lookup_some_name hl
    rw [eq_of_same_name h hm he hn]

theorem check_specs_true_lookup {c : Cache} {d : CStr} {g : Globals}
    (h : check_specs c d g = some true) : ∃ e, lookup c d = some e ∧ e.is_dir = true := by
  unfold check_specs fopen_specs at h
  cases hl : lookup c d with
  | none => rw [hl] at h; simp at h
  | some e =>
    rw [hl] at h
    by_cases hd : e.is_dir = true
    · exact ⟨e, rfl, hd⟩
    · simp [hd] at h

theorem use_cache_cache (env : Env) (s t : State) (argv : List CStr)
    (h : use_cache env s argv = .ok t) :
    t.cache = s.cache ∨ ∃ d, s.g.store_dir = some d ∧ check_specs s.cache d s.g = some true ∧
      t.cache = remove_dir (utimes s.cache d env.now) d := by
  rcases use_cache_cases env s argv with ⟨_, h1⟩ | ⟨d, _, _, h1⟩ | ⟨d, _, _, h1⟩ |
      ⟨d, _, _, _, h1⟩ | ⟨d, h0, hc, _, h1⟩
  all_goals rw [h1] at h
  · cases h; exact Or.inl rfl
  · cases h
  · cases h; exact Or.inl rfl
  · cases h
  · cases h; exact Or.inr ⟨d, h0, hc, rfl⟩

theorem mem_utimes {c : Cache} {d : CStr} {now : Int} {e : Dirent} (h : e ∈ utimes c d now) :
    ∃ e0 ∈ c, e0.d_name = e.d_name ∧ e0.is_dir = e.is_dir := by
  unfold utimes at h
  obtain ⟨e0, h0, rfl⟩ := List.mem_map.1 h
  refine ⟨e0, h0, ?_⟩
  split <;> exact ⟨rfl, rfl⟩

/-- With distinct names, after a verified slot was removed no entry of that
name is left. -/
theorem lookup_after_remove {c : Cache} (hwf : distinct_names c) {d : CStr} {g : Globals}
    (now : Int) (hc : check_specs c d g = some true) :
    lookup (remove_dir (utimes c d now) d) d = none := by
  obtain ⟨e0, hl, hdir⟩ := check_specs_true_lookup hc
  obtain ⟨hn0, hm0⟩ := lookup_some_name hl
  rw [lookup_none_iff]
  intro e he hne
  have h1 := List.mem_filter.1 he
  obtain ⟨e1, hm1, hn1, hd1⟩ := mem_utimes h1.1
  have : e1 = e0 := eq_of_same_name hwf hm1 hm0 (by rw [hn1, hne, hn0])
  subst this
  have h2 := h1.2
  simp only [hne, decide_True, Bool.and_true, Bool.not_eq_true'] at h2
  rw [← hd1, hdir] at h2
  cases h2

/-! ## An oversized spec -/

theorem parse_args_e (expr : CStr) :
    parse_args false [lit "-e", expr] init_globals =
      .ok ({ init_globals with
              src_lines := sa_concat (sa_concat init_globals.src_lines expr) (lit ";\n"),
              oneliner := true }, []) := by
  rw [parse_args.eq_def]
  dsimp only
  rw [if_neg (by decide), if_neg (by decide), if_neg (by decide), if_neg (by decide),
    if_neg (by decide), if_pos (by decide), if_neg (by decide), if_neg (by decide)]
  rw [parse_args.eq_def]
  rfl

theorem determine_cache_dir_oversized (env : Env) (expr : CStr) (hw : 1 ≤ env.ulong_bits)
    (hlen : 65533 ≤ expr.length) :
    determine_cache_dir env [lit "-e", expr] = .ok (g_oversized expr, []) := by
  unfold determine_cache_dir
  rw [parse_args_e]
  have h1 : add_spec { init_globals with
      src_lines := sa_concat (sa_concat init_globals.src_lines expr) (lit ";\n"),
      oneliner := true } (with_nul (lit "-e")) =
      { init_globals with
        src_lines := sa_concat (sa_concat init_globals.src_lines expr) (lit ";\n"),
        oneliner := true, spec := with_nul (lit "-e"), spec_size := 3 } := rfl
  have h2 : add_spec { init_globals with
        src_lines := sa_concat (sa_concat init_globals.src_lines expr) (lit ";\n"),
        oneliner := true, spec := with_nul (lit "-e"), spec_size := 3 } (with_nul expr) =
      { init_globals with
        src_lines := sa_concat (sa_concat init_globals.src_lines expr) (lit ";\n"),
        oneliner := true, spec := with_nul (lit "-e"), spec_size := -1 } := by
    unfold add_spec
    have : (SPEC_CAPACITY : Int) < (3 : Int) + ((with_nul expr).length : Int) := by
      simp only [SPEC_CAPACITY, with_nul, List.length_append, List.length_singleton]
      push_cast
      omega
    rw [if_neg (show ¬ ((3 : Int) = -1) by decide), if_pos this]
  have hp : (1 : Nat) < 2 ^ env.ulong_bits :=
    Nat.lt_of_lt_of_le (by decide) (Nat.pow_le_pow_right (by decide) hw)
  simp only [List.length_cons, List.length_nil, List.take, List.foldl_cons, List.foldl_nil, h1, h2,
    Nat.sub_zero, Nat.reduceAdd]
  simp only [init_globals, build_store_dir, store_key, spec_bytes, store_sums, sa_concat,
    List.take_zero, Nat.zero_mul, Nat.zero_mod, Nat.zero_add,
    Nat.mod_eq_of_lt hp, g_oversized, Bool.not_false, Bool.true_or, Bool.and_self, if_true,
    List.nil_append, List.cons_append, List.singleton_append, Int.reduceNeg]
  rfl

/-! ## The scan of `update_cache` -/

theorem scan_skip (cap : Nat) (e : Dirent) (rest : List Dirent) (o : Option CStr) (m : Int)
    (n : Nat) (h : counted e = false) :
    scan cap (e :: rest) o m n = scan cap rest o m n := by
  unfold counted at h
  rw [scan]
  by_cases hd : e.d_name = lit "." ∨ e.d_name = lit ".."
  · rw [if_pos hd]
  · rw [if_neg hd]
    have : e.is_dir = false := by
      simp only [not_or] at hd
      simpa [hd.1, hd.2] using h
    simp [this]

theorem scan_count (cap : Nat) (e : Dirent) (rest : List Dirent) (acc : Option Dirent)
    (n : Nat) (h : counted e = true) :
    scan cap (e :: rest) (oldest_dir_of acc) (oldest_mtime_of acc) n =
      if cap ≤ n + 1 then some ((pick acc e).d_name, !rest.isEmpty)
      else scan cap rest (oldest_dir_of (some (pick acc e)))
        (oldest_mtime_of (some (pick acc e))) (n + 1) := by
  unfold counted at h
  simp only [Bool.and_eq_true, Bool.not_eq_true', Bool.or_eq_false_iff,
    decide_eq_false_iff_not] at h
  obtain ⟨⟨h1, h2⟩, h3⟩ := h
  rw [scan]
  rw [if_neg (by simp [h1, h2]), if_pos h3]
  cases acc with
  | none => simp [oldest_dir_of, oldest_mtime_of, pick]
  | some a =>
    by_cases hlt : e.st_mtime < a.st_mtime
    · simp [oldest_dir_of, oldest_mtime_of, pick, hlt]
    · simp [oldest_dir_of, oldest_mtime_of, pick, hlt]

theorem dirs_cons_counted (e : Dirent) (l : Cache) (h : counted e = true) :
    dirs (e :: l) = e :: dirs l := by
  unfold dirs
  rw [List.filter_cons_of_pos h]

theorem dirs_cons_skip (e : Dirent) (l : Cache) (h : counted e = false) :
    dirs (e :: l) = dirs l := by
  unfold dirs
  rw [List.filter_cons_of_neg (by simp [h])]

theorem pick_le (acc : Option Dirent) (e : Dirent) :
    (pick acc e).st_mtime ≤ e.st_mtime ∧ (∀ a, acc = some a → (pick acc e).st_mtime ≤ a.st_mtime) ∧
      (pick acc e = e ∨ acc = some (pick acc e)) := by
  cases acc with
  | none => exact ⟨Int.le_refl _, fun a h => (by cases h), Or.inl rfl⟩
  | some a =>
    by_cases hlt : e.st_mtime < a.st_mtime
    · have hp : pick (some a) e = e := by simp only [pick, hlt, if_true]
      rw [hp]
      exact ⟨Int.le_refl _, fun b hb => (by cases hb; exact Int.le_of_lt hlt), Or.inl rfl⟩
    · have hp : pick (some a) e = a := by simp only [pick, hlt, if_false]
      rw [hp]
      exact ⟨Int.not_lt.1 hlt, fun b hb => (by cases hb; exact Int.le_refl _), Or.inr rfl⟩

/-- The scan from `num_files = n` on, with `acc` the oldest entry met so far:
with fewer than `cap - n` directories to come nothing is removed; else the
victim is an entry of the smallest modification time among `acc` and the next
`cap - n` directories. -/
theorem scan_spec (cap : Nat) : ∀ (l : Cache) (acc : Option Dirent) (n : Nat), n < cap →
    ((dirs l).length < cap - n →
      scan cap l (oldest_dir_of acc) (oldest_mtime_of acc) n = none) ∧
    (cap - n ≤ (dirs l).length →
      ∃ e more, scan cap l (oldest_dir_of acc) (oldest_mtime_of acc) n = some (e.d_name, more) ∧
        (e ∈ (dirs l).take (cap - n) ∨ acc = some e) ∧
        (∀ x ∈ (dirs l).take (cap - n), e.st_mtime ≤ x.st_mtime) ∧
        (∀ a, acc = some a → e.st_mtime ≤ a.st_mtime)) := by
  intro l
  induction l with
  | nil =>
    intro acc n hn
    refine ⟨fun _ => rfl, fun h => ?_⟩
    simp only [dirs, List.filter_nil, List.length_nil, Nat.le_zero] at h
    omega
  | cons e rest ih =>
    intro acc n hn
    by_cases hc : counted e = true
    · rw [scan_count cap e rest acc n hc, dirs_cons_counted e rest hc]
      obtain ⟨p1, p2, p3⟩ := pick_le acc e
      by_cases hcap : cap ≤ n + 1
      · have hcn : cap - n = 1 := by omega
        rw [if_pos hcap, hcn]
        refine ⟨fun h => ?_, fun _ => ⟨pick acc e, !rest.isEmpty, rfl, ?_, ?_, p2⟩⟩
        · simp at h
        · rcases p3 with h | h
          · left; rw [h]; simp
          · right; exact h
        · intro x hx
          simp only [List.take_succ_cons, List.take_zero, List.mem_singleton] at hx
          rw [hx]; exact p1
      · rw [if_neg hcap]
        have hn1 : n + 1 < cap := by omega
        obtain ⟨i1, i2⟩ := ih (some (pick acc e)) (n + 1) hn1
        have hcn : cap - n = (cap - (n + 1)) + 1 := by omega
        refine ⟨fun h => i1 (by simp only [List.length_cons] at h; omega), fun h => ?_⟩
        obtain ⟨e2, more, h1, h2, h3, h4⟩ := i2 (by simp only [List.length_cons] at h; omega)
        refine ⟨e2, more, h1, ?_, ?_, ?_⟩
        · rw [hcn, List.take_succ_cons]
          rcases h2 with h2 | h2
          · left; exact List.mem_cons_of_mem _ h2
          · have : pick acc e = e2 := Option.some.inj h2
            rcases p3 with h | h
            · left; rw [← this, h]; exact List.mem_cons_self _ _
            · right; rw [← this]; exact h
        · intro x hx
          rw [hcn, List.take_succ_cons] at hx
          rcases List.mem_cons.1 hx with hx | hx
          · rw [hx]; exact Int.le_trans (h4 _ rfl) p1
          · exact h3 x hx
        · intro a ha
          exact Int.le_trans (h4 _ rfl) (p2 a ha)
    · have hc2 : counted e = false := by simpa using hc
      rw [scan_skip cap e rest _ _ n hc2, dirs_cons_skip e rest hc2]
      exact ih acc n hn

/-- A pass from the start: with fewer than `cap` directories nothing is
removed. -/
theorem scan_none_of_few (cap : Nat) (l : Cache) (h : (dirs l).length < cap) :
    scan cap l none 0 0 = none :=
  (scan_spec cap l none 0 (by omega)).1 (by omega)

/-- A pass from the start that removes `v`: there are at least `cap`
directories, and `v` names one of the smallest modification time among the
first `cap` of them. -/
theorem scan_victim (cap : Nat) (hcap : 0 < cap) (l : Cache) (v : CStr) (more : Bool)
    (h : scan cap l none 0 0 = some (v, more)) :
    cap ≤ (dirs l).length ∧ ∃ e ∈ (dirs l).take cap, e.d_name = v ∧
      ∀ x ∈ (dirs l).take cap, e.st_mtime ≤ x.st_mtime := by
  obtain ⟨s1, s2⟩ := scan_spec cap l none 0 hcap
  have hlen : cap ≤ (dirs l).length := by
    by_contra hlt
    have := s1 (by omega)
    simp only [oldest_dir_of, oldest_mtime_of, Option.map, Option.getD] at this
    rw [this] at h
    cases h
  refine ⟨hlen, ?_⟩
  obtain ⟨e, m2, h1, h2, h3, _⟩ := s2 (by omega)
  simp only [oldest_dir_of, oldest_mtime_of, Option.map, Option.getD] at h1
  rw [h1] at h
  have hv : e.d_name = v := (Prod.mk.inj (Option.some.inj h)).1
  rcases h2 with h2 | h2
  · exact ⟨e, h2, hv, h3⟩
  · cases h2

/-! ## The passes of `update_cache` -/

theorem mem_dirs {l : Cache} {e : Dirent} (h : e ∈ dirs l) : e ∈ l ∧ counted e = true :=
  List.mem_filter.1 h

theorem counted_is_dir {e : Dirent} (h : counted e = true) : e.is_dir = true := by
  unfold counted at h
  simp only [Bool.and_eq_true] at h
  exact h.2

/-- Every removal shortens the listing. -/
theorem remove_dir_length_lt (cap : Nat) (hcap : 0 < cap) (c : Cache) (v : CStr) (more : Bool)
    (h : scan cap c none 0 0 = some (v, more)) : (remove_dir c v).length < c.length := by
  obtain ⟨_, e, he, hv, _⟩ := scan_victim cap hcap c v more h
  obtain ⟨hm, hc⟩ := mem_dirs (List.mem_of_mem_take he)
  unfold remove_dir
  apply List.length_filter_lt_length_iff_exists.2
  exact ⟨e, hm, by simp [counted_is_dir hc, hv]⟩

/-- Fuel beyond the length of the listing changes nothing: `update_cache`
runs the loop to its end. -/
theorem update_cache_loop_fuel (cap : Nat) (hcap : 0 < cap) : ∀ (f1 f2 : Nat) (c : Cache),
    c.length < f1 → c.length < f2 → update_cache_loop cap f1 c = update_cache_loop cap f2 c := by
  intro f1
  induction f1 with
  | zero => intro f2 c h; omega
  | succ k ih =>
    intro f2 c h1 h2
    cases f2 with
    | zero => omega
    | succ m =>
      unfold update_cache_loop
      cases hs : scan cap c none 0 0 with
      | none => rfl
      | some p =>
        obtain ⟨v, more⟩ := p
        have hlt := remove_dir_length_lt cap hcap c v more hs
        dsimp only
        cases more with
        | false => rfl
        | true =>
          simp only [if_true]
          rw [ih m (remove_dir c v) (by omega) (by omega)]

/-- Every removal of the loop is the removal of a pass that starts on the
listing of that moment. -/
theorem evictions_scan (cap : Nat) : ∀ (fuel : Nat) (c : Cache),
    ∀ p ∈ (update_cache_loop cap fuel c).2, ∃ more, scan cap p.2 none 0 0 = some (p.1, more) := by
  intro fuel
  induction fuel with
  | zero => intro c p hp; simp [update_cache_loop] at hp
  | succ k ih =>
    intro c p hp
    unfold update_cache_loop at hp
    cases hs : scan cap c none 0 0 with
    | none => rw [hs] at hp; simp at hp
    | some q =>
      obtain ⟨v, more⟩ := q
      rw [hs] at hp
      dsimp only at hp
      cases more with
      | false =>
        simp only [Bool.false_eq_true, if_false, List.mem_singleton] at hp
        rw [hp]
        exact ⟨false, hs⟩
      | true =>
        simp only [if_true, List.mem_cons] at hp
        rcases hp with hp | hp
        · rw [hp]
          exact ⟨true, hs⟩
        · exact ih _ p hp

theorem dirs_remove_dir (c : Cache) (v : CStr) :
    dirs (remove_dir c v) = (dirs c).filter (fun e => !decide (e.d_name = v)) := by
  unfold dirs remove_dir
  rw [List.filter_filter, List.filter_filter]
  apply List.filter_congr
  intro e _
  by_cases hd : e.is_dir = true
  · by_cases hn : e.d_name = v
    · simp [counted, hd, hn]
    · simp [counted, hd, hn]
  · have : e.is_dir = false := by simpa using hd
    simp [counted, this]

/-- With fewer than `cap` directories `update_cache` removes nothing. -/
theorem update_cache_loop_few (cap : Nat) (fuel : Nat) (c : Cache)
    (h : (dirs c).length < cap) : update_cache_loop cap fuel c = (c, []) := by
  cases fuel with
  | zero => rfl
  | succ k =>
    unfold update_cache_loop
    rw [scan_none_of_few cap c h]

/-- With exactly `cap` directories of distinct names `update_cache` removes
one directory, of the smallest modification time. -/
theorem update_cache_loop_full (cap : Nat) (hcap : 0 < cap) (fuel : Nat) (c : Cache)
    (h : (dirs c).length = cap) (hn : ((dirs c).map Dirent.d_name).Nodup) :
    ∃ e ∈ dirs c, (∀ x ∈ dirs c, e.st_mtime ≤ x.st_mtime) ∧
      (update_cache_loop cap (fuel + 1) c).1 = remove_dir c e.d_name ∧
      dirs (remove_dir c e.d_name) = (dirs c).filter (fun x => !decide (x = e)) := by
  obtain ⟨_, s2⟩ := scan_spec cap c none 0 hcap
  obtain ⟨e, more, h1, h2, h3, _⟩ := s2 (by omega)
  simp only [oldest_dir_of, oldest_mtime_of, Option.map, Option.getD] at h1
  have htake : (dirs c).take (cap - 0) = dirs c := by
    rw [Nat.sub_zero, ← h, List.take_length]
  rw [htake] at h2 h3
  have he : e ∈ dirs c := by
    rcases h2 with h2 | h2
    · exact h2
    · cases h2
  have hfilter : dirs (remove_dir c e.d_name) = (dirs c).filter (fun x => !decide (x = e)) := by
    rw [dirs_remove_dir]
    apply List.filter_congr
    intro x hx
    by_cases hxe : x = e
    · simp [hxe]
    · have : ¬ x.d_name = e.d_name := fun hne => hxe (List.inj_on_of_nodup_map hn hx he hne)
      simp [hxe, this]
  refine ⟨e, he, h3, ?_, hfilter⟩
  unfold update_cache_loop
  rw [h1]
  dsimp only
  cases more with
  | false => rfl
  | true =>
    simp only [if_true]
    have hlen : (dirs (remove_dir c e.d_name)).length < cap := by
      rw [hfilter, ← h]
      apply List.length_filter_lt_length_iff_exists.2
      exact ⟨e, he, by simp⟩
    rw [update_cache_loop_few cap fuel _ hlen]

/-! ## Commits one after another -/

theorem lastN_of_le {α : Type} (n : Nat) (l : List α) (h : l.length ≤ n) : lastN n l = l := by
  unfold lastN
  have : l.length - n = 0 := by omega
  rw [this, List.drop_zero]

theorem lastN_append_one {α : Type} (n : Nat) (l : List α) (a : α) :
    lastN (n + 1) (l ++ [a]) = lastN n l ++ [a] := by
  unfold lastN
  have : (l ++ [a]).length - (n + 1) = l.length - n := by
    rw [List.length_append, List.length_singleton]; omega
  rw [this, List.drop_append_of_le_length (by omega)]

theorem lastN_succ {α : Type} (n : Nat) (l : List α) (h : n + 1 ≤ l.length) :
    ∃ a, lastN (n + 1) l = a :: lastN n l := by
  unfold lastN
  have hi : l.length - (n + 1) < l.length := by omega
  refine ⟨l[l.length - (n + 1)], ?_⟩
  rw [List.drop_eq_getElem_cons hi]
  have : l.length - (n + 1) + 1 = l.length - n := by omega
  rw [this]

theorem lastN_length {α : Type} (n : Nat) (l : List α) :
    (lastN n l).length = min n l.length := by
  unfold lastN
  rw [List.length_drop]
  omega

theorem lastN_sublist {α : Type} (n : Nat) (l : List α) : (lastN n l).Sublist l :=
  List.drop_sublist _ _

theorem hex8_length (k : Nat) : (hex8 k).length = 8 := by
  unfold hex8
  rw [List.length_map]
  rfl

theorem hex8_counted (k : Nat) (e : Dirent) (hn : e.d_name = hex8 k) (hd : e.is_dir = true) :
    counted e = true := by
  have h1 : ¬ e.d_name = lit "." := by
    intro h
    have := congrArg List.length (hn.symm.trans h)
    rw [hex8_length] at this
    exact absurd this (by decide)
  have h2 : ¬ e.d_name = lit ".." := by
    intro h
    have := congrArg List.length (hn.symm.trans h)
    rw [hex8_length] at this
    exact absurd this (by decide)
  simp [counted, h1, h2, hd]

theorem dirs_insert_at (c : Cache) (pos : Nat) (e : Dirent) (h : counted e = true) :
    (dirs (insert_at c pos e)).Perm (e :: dirs c) := by
  unfold dirs insert_at
  rw [List.filter_append, List.filter_cons_of_pos h]
  refine List.perm_middle.trans ?_
  rw [← List.filter_append, List.take_append_drop]

/-- A rename that succeeds into a slot of a listing whose directories all hold
files found the slot free. -/
theorem rename_ok (c : Cache) (pos : Nat) (ws : Dirent) (k : Nat)
    (hfiles : ∀ x ∈ dirs c, x.files ≠ []) (hok : (rename c pos ws (hex8 k)).2 = true) :
    lookup c (hex8 k) = none ∧
      (rename c pos ws (hex8 k)).1 = insert_at c pos { ws with d_name := hex8 k } := by
  unfold rename at hok ⊢
  cases hl : lookup c (hex8 k) with
  | none => exact ⟨rfl, rfl⟩
  | some e =>
    rw [hl] at hok
    dsimp only at hok
    by_cases he : e.is_dir = true ∧ e.files = []
    · obtain ⟨hn, hm⟩ := lookup_some_name hl
      have hc := hex8_counted k e hn he.1
      exact absurd he.2 (hfiles e (List.mem_filter.2 ⟨hm, hc⟩))
    · rw [if_neg he] at hok
      cases hok

/-- What `update_cache` does to a cache whose directories are the last `n + 1`
of the entries `es` committed so far, with modification times in the order of
the commits: the directories left are the last `n`. -/
theorem update_cache_lastN (n : Nat) (hn : FILES_PER_CACHEDIR = n + 1) (c : Cache)
    (es : List Dirent) (hperm : (dirs c).Perm (lastN (n + 1) es))
    (hnames : ((dirs c).map Dirent.d_name).Nodup)
    (hsorted : es.Pairwise (fun a b => a.st_mtime < b.st_mtime)) :
    (dirs (update_cache c)).Perm (lastN n es) ∧ (dirs (update_cache c)).Sublist (dirs c) := by
  have hlen : (dirs c).length = min (n + 1) es.length := by
    rw [hperm.length_eq, lastN_length]
  unfold update_cache
  by_cases hfew : es.length ≤ n
  · have h1 : (dirs c).length < FILES_PER_CACHEDIR := by rw [hn, hlen]; omega
    rw [update_cache_loop_few _ _ c h1]
    dsimp only
    rw [lastN_of_le n es hfew]
    rw [lastN_of_le (n + 1) es (by omega)] at hperm
    exact ⟨hperm, List.Sublist.refl _⟩
  · have h1 : (dirs c).length = FILES_PER_CACHEDIR := by rw [hn, hlen]; omega
    obtain ⟨e, he, hmin, hupd, hdirs⟩ :=
      update_cache_loop_full FILES_PER_CACHEDIR (by decide) c.length c h1 hnames
    rw [hupd, hdirs]
    obtain ⟨a, ha⟩ := lastN_succ n es (by omega)
    have hpw : (a :: lastN n es).Pairwise (fun x y => x.st_mtime < y.st_mtime) := by
      rw [← ha]
      exact hsorted.sublist (lastN_sublist _ _)
    have hlt : ∀ x ∈ lastN n es, a.st_mtime < x.st_mtime := (List.pairwise_cons.1 hpw).1
    -- the removed directory is the first of the last `n + 1`
    have hea : e = a := by
      have h2 : e ∈ a :: lastN n es := by rw [← ha]; exact hperm.subset he
      rcases List.mem_cons.1 h2 with h3 | h3
      · exact h3
      · have ha2 : a ∈ dirs c := hperm.symm.subset (by rw [ha]; exact List.mem_cons_self _ _)
        have := hmin a ha2
        have := hlt e h3
        omega
    subst hea
    refine ⟨?_, List.filter_sublist _⟩
    have h3 := hperm.filter (fun x => !decide (x = e))
    rw [ha, List.filter_cons_of_neg (by simp)] at h3
    have h4 : (lastN n es).filter (fun x => !decide (x = e)) = lastN n es := by
      rw [List.filter_eq_self]
      intro x hx
      have := hlt x hx
      have hne : ¬ x = e := by
        intro h5
        rw [h5] at this
        omega
      simp [hne]
    rw [h4] at h3
    exact h3

theorem commit_step (c : Cache) (es : List Dirent) (k : Commit) (h : committed c es)
    (hsorted : (es ++ [entry_of k]).Pairwise (fun a b => a.st_mtime < b.st_mtime))
    (hk : k.ws.is_dir = true ∧ k.ws.files ≠ []) (hok : (commit c k).2 = true) :
    committed (commit c k).1 (es ++ [entry_of k]) := by
  obtain ⟨hperm, hnames, hfiles⟩ := h
  have hn : FILES_PER_CACHEDIR = 127 + 1 := rfl
  rw [hn] at hperm
  obtain ⟨u1, u2⟩ := update_cache_lastN 127 hn c es hperm hnames
    (hsorted.sublist (List.sublist_append_left _ _))
  have hfiles2 : ∀ x ∈ dirs (update_cache c), x.files ≠ [] := fun x hx => hfiles x (u2.subset hx)
  unfold commit at hok ⊢
  obtain ⟨hfree, hres⟩ := rename_ok (update_cache c) k.pos k.ws k.key hfiles2 hok
  rw [hres]
  have hc : counted (entry_of k) = true := hex8_counted k.key _ rfl hk.1
  have hp := dirs_insert_at (update_cache c) k.pos (entry_of k) hc
  have hnew : entry_of k = { k.ws with d_name := hex8 k.key } := rfl
  rw [← hnew]
  refine ⟨?_, ?_, ?_⟩
  · rw [hn, lastN_append_one]
    exact hp.trans ((List.Perm.cons _ u1).trans (List.perm_append_singleton _ _).symm)
  · have h1 := (hp.map Dirent.d_name).nodup_iff
    rw [h1, List.map_cons, List.nodup_cons]
    refine ⟨?_, (hnames.sublist (u2.map _))⟩
    intro hmem
    obtain ⟨x, hx, hxn⟩ := List.mem_map.1 hmem
    rw [lookup_none_iff] at hfree
    exact hfree x (mem_dirs hx).1 hxn
  · intro x hx
    rcases List.mem_cons.1 (hp.subset hx) with h1 | h1
    · rw [h1]; exact hk.2
    · exact hfiles2 x h1

theorem commit_all_committed : ∀ (ks : List Commit) (c : Cache) (es : List Dirent),
    committed c es →
    (es ++ ks.map entry_of).Pairwise (fun a b => a.st_mtime < b.st_mtime) →
    (∀ k ∈ ks, k.ws.is_dir = true ∧ k.ws.files ≠ []) →
    all_renamed c ks = true →
    committed (commit_all c ks) (es ++ ks.map entry_of) := by
  intro ks
  induction ks with
  | nil => intro c es h _ _ _; simpa [commit_all] using h
  | cons k ks ih =>
    intro c es h hs hk hok
    unfold all_renamed at hok
    rw [Bool.and_eq_true] at hok
    have hs2 : (es ++ [entry_of k] ++ ks.map entry_of).Pairwise
        (fun a b => a.st_mtime < b.st_mtime) := by
      simpa using hs
    have hstep := commit_step c es k h (hs2.sublist (List.sublist_append_left _ _))
      (hk k (List.mem_cons_self _ _)) hok.1
    have := ih (commit c k).1 (es ++ [entry_of k]) hstep hs2
      (fun x hx => hk x (List.mem_cons_of_mem _ hx)) hok.2
    unfold commit_all
    simpa using this

/-! ## What the build does to the cache -/

theorem mem_remove_dir_or {c : Cache} {e : Dirent} (d : CStr) (he : e ∈ c) :
    e ∈ remove_dir c d ∨ (e.is_dir = true ∧ e.d_name = d) := by
  by_cases h : e.is_dir = true ∧ e.d_name = d
  · exact Or.inr h
  · left
    unfold remove_dir
    refine List.mem_filter.2 ⟨he, ?_⟩
    by_cases h1 : e.is_dir = true
    · have h2 : ¬ e.d_name = d := fun x => h ⟨h1, x⟩
      simp [h2]
    · simp [h1]

theorem mem_insert_at {c : Cache} {e : Dirent} (pos : Nat) (x : Dirent) (he : e ∈ c) :
    e ∈ insert_at c pos x := by
  unfold insert_at
  rw [← List.take_append_drop pos c] at he
  rcases List.mem_append.1 he with h | h
  · exact List.mem_append_left _ h
  · exact List.mem_append_right _ (List.mem_cons_of_mem _ h)

/-- An entry that a run of `update_cache_loop` does not leave in the listing
is a directory that the run removed as a victim. -/
theorem update_cache_loop_removed (cap : Nat) : ∀ (fuel : Nat) (c : Cache) (e : Dirent),
    e ∈ c → e ∈ (update_cache_loop cap fuel c).1 ∨
      (e.is_dir = true ∧ ∃ c2, (e.d_name, c2) ∈ (update_cache_loop cap fuel c).2) := by
  intro fuel
  induction fuel with
  | zero => intro c e he; exact Or.inl he
  | succ n ih =>
    intro c e he
    unfold update_cache_loop
    cases hs : scan cap c none 0 0 with
    | none => exact Or.inl he
    | some p =>
      obtain ⟨victim, more⟩ := p
      dsimp only
      cases more with
      | true =>
        simp only [if_true]
        rcases mem_remove_dir_or victim he with h | ⟨h1, h2⟩
        · rcases ih _ e h with h3 | ⟨h3, c2, h4⟩
          · exact Or.inl h3
          · exact Or.inr ⟨h3, c2, List.mem_cons_of_mem _ h4⟩
        · exact Or.inr ⟨h1, c, by rw [h2]; exact List.mem_cons_self _ _⟩
      | false =>
        simp only [Bool.false_eq_true, if_false]
        rcases mem_remove_dir_or victim he with h | ⟨h1, h2⟩
        · exact Or.inl h
        · exact Or.inr ⟨h1, c, by rw [h2]; exact List.mem_singleton.2 rfl⟩

/-- An entry that `update_cache` does not leave in the listing is a directory
that it evicted. -/
theorem update_cache_removed (c : Cache) (e : Dirent) (he : e ∈ c) :
    e ∈ update_cache c ∨ (e.is_dir = true ∧ ∃ c2, (e.d_name, c2) ∈ evictions c) :=
  update_cache_loop_removed _ _ c e he

/-- An entry that `rename` does not leave in the listing is a directory named
as the slot, and the entry found under that name is an empty directory, which
the rename replaces. -/
theorem rename_removed (c : Cache) (pos : Nat) (ws : Dirent) (d : CStr) (e : Dirent)
    (he : e ∈ c) :
    e ∈ (rename c pos ws d).1 ∨
      (e.is_dir = true ∧ e.d_name = d ∧
        ∃ e0, lookup c d = some e0 ∧ e0.is_dir = true ∧ e0.files = []) := by
  unfold rename
  cases hl : lookup c d with
  | none => exact Or.inl (mem_insert_at _ _ he)
  | some e0 =>
    dsimp only
    by_cases hemp : e0.is_dir = true ∧ e0.files = []
    · rw [if_pos hemp]
      rcases mem_remove_dir_or d he with h | ⟨h1, h2⟩
      · exact Or.inl (mem_insert_at _ _ h)
      · exact Or.inr ⟨h1, h2, e0, rfl, hemp.1, hemp.2⟩
    · rw [if_neg hemp]
      exact Or.inl he

theorem publish_cache (env : Env) (s : State) (ret : Nat) :
    built_from env.rename_pos s.g.store_dir s.cache (publish env s ret).2.cache := by
  rcases publish_cases env s ret with ⟨_, h⟩ | ⟨d, _, _, h⟩ | ⟨d, ws, _, _, _, h⟩ |
      ⟨d, ws, h0, _, _, hr, h⟩ | ⟨d, ws, _, _, _, _, h⟩
  all_goals rw [h]
  · exact Or.inl (cleanup_cache _)
  · exact Or.inl (by simp only [cmd_error, cleanup_cache])
  · exact Or.inl (write_temp_cache _ _ _)
  · exact Or.inr (Or.inr ⟨d, _, h0, hr, rfl⟩)
  · exact Or.inr (Or.inl (cleanup_cache _))

theorem from_compile_cache (env : Env) (s : State) (argv : List CStr) :
    built_from env.rename_pos s.g.store_dir s.cache (from_compile env s argv).2.cache := by
  unfold from_compile
  cases hdg : s.g.dangling with
  | true =>
    rw [compile_dangling env s hdg]
    exact Or.inl rfl
  | false =>
    have hc := compile_ok env s hdg
    cases hcr : compile env s with
    | error o =>
      rw [hcr] at hc
      exact Or.inl hc.2.1
    | ok s2 =>
      rw [hcr] at hc
      obtain ⟨_, _, c3, c4, _⟩ := hc
      have hsd : s2.g.store_dir = s.g.store_dir := by rw [c4]
      dsimp only
      rcases execute_cases env s2 argv with ⟨r, hx, _⟩ | hx | ⟨res, _, hx⟩
      · rw [hx]
        dsimp only
        have := publish_cache env (s2.note (Event.run (child_argv s2.g argv) (Proc.exited r))) r
        rw [note_g, note_cache, hsd, c3] at this
        exact this
      · rw [hx]
        dsimp only
        have := publish_cache env
          (cleanup (s2.note (Event.run (child_argv s2.g argv) Proc.exec_failed))) 255
        rw [cleanup_g, cleanup_cache, note_g, note_cache, hsd, c3] at this
        exact this
      · rw [hx]
        left
        simp only [cmd_error, cleanup_cache, note_cache]
        exact c3

theorem build_cache (env : Env) (s : State) (argv : List CStr) :
    built_from env.rename_pos s.g.store_dir s.cache (build env s argv).2.cache := by
  have hp := prepare_files_ok env s argv
  unfold build
  cases hpp : prepare_files env s argv with
  | error o =>
    rw [hpp] at hp
    exact Or.inl hp.2.1
  | ok q =>
    obtain ⟨s1, a1⟩ := q
    rw [hpp] at hp
    obtain ⟨_, p2, p3, _⟩ := hp
    dsimp only
    have := from_compile_cache env s1 a1
    rw [p2, p3] at this
    exact this

/-- The listing in which `main` ends: the one it started on, or the one the
use of the cache left, then changed by the build at most through
`update_cache` and a successful rename into the slot. -/
theorem main_cache (env : Env) (cache : Cache) (argv : List CStr) :
    (main env cache argv).2.cache = cache ∨
    ∃ g rest, determine_cache_dir env (argv.drop 1) = .ok (g, rest) ∧
      built_from env.rename_pos g.store_dir
        (after_use_cache env { g := g, cache := cache, temp := none, log := [] } rest).cache
        (main env cache argv).2.cache := by
  by_cases hs : env.setup_ok = true
  · cases hd : determine_cache_dir env (argv.drop 1) with
    | error p =>
      left
      obtain ⟨a, g⟩ := p
      unfold main
      simp only [hs, Bool.not_true, Bool.false_eq_true, if_false, hd]
      cases a <;> simp [cmd_error]
    | ok p =>
      right
      obtain ⟨g, rest⟩ := p
      refine ⟨g, rest, rfl, ?_⟩
      rw [main_eq env cache argv g rest hs hd]
      have hu := use_cache_staged env { g := g, cache := cache, temp := none, log := [] } rest
        (fun e he => by simp at he)
      unfold after_use_cache
      cases hc : use_cache env { g := g, cache := cache, temp := none, log := [] } rest with
      | error o => exact Or.inl rfl
      | ok s1 =>
        rw [hc] at hu
        dsimp only
        have := build_cache env s1 rest
        rw [hu.2.1] at this
        exact this
  · left
    have : env.setup_ok = false := by simpa using hs
    unfold main
    simp [this, cmd_error]

/-- What the use of the cache (lines 583-594) does to the listing. -/
theorem use_cache_listing (env : Env) (s : State) (argv : List CStr) :
    stems s.cache (after_use_cache env s argv).cache ∧
    (∀ e ∈ s.cache, s.g.store_dir ≠ some e.d_name → e ∈ (after_use_cache env s argv).cache) ∧
    (s.g.store_dir = none → (after_use_cache env s argv).cache = s.cache) ∧
    (∀ d, s.g.store_dir = some d → check_specs s.cache d s.g ≠ some true →
      (after_use_cache env s argv).cache = s.cache) ∧
    (∀ d, s.g.store_dir = some d → check_specs s.cache d s.g = some true →
      (has_a_out (utimes s.cache d env.now) d && env.execv_ok) = true →
      (after_use_cache env s argv).cache = utimes s.cache d env.now) ∧
    (∀ d, s.g.store_dir = some d → check_specs s.cache d s.g = some true →
      (has_a_out (utimes s.cache d env.now) d && env.execv_ok) = false →
      (after_use_cache env s argv).cache = remove_dir (utimes s.cache d env.now) d) := by
  have hkeep : ∀ (d : CStr) (now : Int), ∀ e ∈ s.cache, s.g.store_dir ≠ some e.d_name →
      s.g.store_dir = some d → e ∈ utimes s.cache d now ∧
        e ∈ remove_dir (utimes s.cache d now) d := by
    intro d now e he hne hd
    have hn : ¬ e.d_name = d := fun h => hne (by rw [hd, h])
    have h1 : e ∈ utimes s.cache d now := by
      unfold utimes
      exact List.mem_map.2 ⟨e, he, by simp [hn]⟩
    refine ⟨h1, ?_⟩
    unfold remove_dir
    exact List.mem_filter.2 ⟨h1, by simp [hn]⟩
  unfold after_use_cache
  rcases use_cache_cases env s argv with ⟨h0, h1⟩ | ⟨d, h0, hc, h1⟩ | ⟨d, h0, hc, h1⟩ |
      ⟨d, h0, hc, hx, h1⟩ | ⟨d, h0, hc, hx, h1⟩
  all_goals rw [h1]
  all_goals dsimp only
  · refine ⟨stems_refl _, fun e he _ => he, fun _ => rfl, fun _ _ _ => rfl, ?_, ?_⟩
    · intro d hd; rw [h0] at hd; cases hd
    · intro d hd; rw [h0] at hd; cases hd
  · refine ⟨stems_refl _, fun e he _ => he, fun _ => rfl, fun _ _ _ => rfl, ?_, ?_⟩
    · intro d2 hd hc2
      rw [h0] at hd; cases hd
      rw [hc] at hc2; cases hc2
    · intro d2 hd hc2
      rw [h0] at hd; cases hd
      rw [hc] at hc2; cases hc2
  · refine ⟨stems_refl _, fun e he _ => he, fun _ => rfl, fun _ _ _ => rfl, ?_, ?_⟩
    · intro d2 hd hc2
      rw [h0] at hd; cases hd
      rw [hc] at hc2; cases hc2
    · intro d2 hd hc2
      rw [h0] at hd; cases hd
      rw [hc] at hc2; cases hc2
  · refine ⟨stems_utimes _ _ _, fun e he hne => (hkeep d env.now e he hne h0).1, ?_, ?_, ?_, ?_⟩
    · intro hn; rw [h0] at hn; cases hn
    · intro d2 hd hc2
      rw [h0] at hd; cases hd
      exact absurd hc hc2
    · intro d2 hd _ _
      rw [h0] at hd; cases hd
      rfl
    · intro d2 hd _ hx2
      rw [h0] at hd; cases hd
      rw [hx] at hx2; cases hx2
  · refine ⟨stems_remove_dir (stems_utimes _ _ _) _,
      fun e he hne => (hkeep d env.now e he hne h0).2, ?_, ?_, ?_, ?_⟩
    · intro hn; rw [h0] at hn; cases hn
    · intro d2 hd hc2
      rw [h0] at hd; cases hd
      exact absurd hc hc2
    · intro d2 hd _ hx2
      rw [h0] at hd; cases hd
      rw [hx] at hx2; cases hx2
    · intro d2 hd _ _
      rw [h0] at hd; cases hd
      rfl

/-! ## The claims -/

/-- C1: when a cache slot `d` was computed for a spec of 0..65536 bytes,
`check_specs` returns 1 exactly when the slot has a `SPECS` file whose content
is the current spec; the pipeline attempts `execv` (of `<store_dir>/a.out`, and
of nothing else) exactly in that case; in every other case `check_specs`
returns 0, the cache is left as it is and the pipeline is the build in a
fresh workspace. -/
theorem C1_cached_iff_specs_equal (env : Env) (cache : Cache) (argv : List CStr)
    (g : Globals) (rest : List CStr) (d : CStr)
    (hsetup : env.setup_ok = true)
    (hd : determine_cache_dir env (argv.drop 1) = .ok (g, rest))
    (hslot : g.store_dir = some d)
    (hsize : 0 ≤ g.spec_size ∧ g.spec_size ≤ 65536) :
    check_specs cache d g = some (decide (fopen_specs cache d = some (spec_bytes g))) ∧
    ((∃ f a ok, Event.execv f a ok ∈ (main env cache argv).2.log) ↔
      fopen_specs cache d = some (spec_bytes g)) ∧
    (∀ f a ok, Event.execv f a ok ∈ (main env cache argv).2.log → f = cached_exec_file d) ∧
    (fopen_specs cache d ≠ some (spec_bytes g) →
      check_specs cache d g = some false ∧
      main env cache argv =
        build env { g := g, cache := cache, temp := none,
                    log := [Event.check_specs d false] } rest) := by
  have hok := (determine_cache_dir_ok env _ g rest hd).1
  have hlen : (g.spec.length : Int) = g.spec_size := by
    rcases hok with h | ⟨_, _, h⟩
    · omega
    · exact h
  have hcs := check_specs_eq cache d g hsize.1 hlen
  have hmain := main_eq env cache argv g rest hsetup hd
  refine ⟨hcs, ?_⟩
  by_cases hm : fopen_specs cache d = some (spec_bytes g)
  · -- the slot records the current spec
    have hcs1 : check_specs cache d g = some true := by rw [hcs]; simp [hm]
    rcases use_cache_cases env { g := g, cache := cache, temp := none, log := [] } rest with
      ⟨h0, _⟩ | ⟨d2, h0, h1, _⟩ | ⟨d2, h0, h1, _⟩ | ⟨d2, h0, h1, _, h2⟩ | ⟨d2, h0, h1, _, h2⟩
    · rw [hslot] at h0; cases h0
    · have hdd : d2 = d := by rw [hslot] at h0; exact (Option.some.inj h0).symm
      subst hdd
      rw [hcs1] at h1; cases h1
    · have hdd : d2 = d := by rw [hslot] at h0; exact (Option.some.inj h0).symm
      subst hdd
      rw [hcs1] at h1; cases h1
    · have hdd : d2 = d := by rw [hslot] at h0; exact (Option.some.inj h0).symm
      subst hdd
      rw [h2] at hmain
      rw [hmain]
      refine ⟨⟨fun _ => hm, fun _ => ⟨cached_exec_file d2, cached_exec_file d2 :: argv_plus_1 env rest,
        true, by simp⟩⟩, ?_, fun hne => absurd hm hne⟩
      intro f a ok he
      simp only [List.nil_append, List.mem_cons, List.mem_singleton,
        List.not_mem_nil, or_false] at he
      rcases he with he | he
      · cases he
      · exact (Event.execv.inj he).1
    · have hdd : d2 = d := by rw [hslot] at h0; exact (Option.some.inj h0).symm
      subst hdd
      rw [h2] at hmain
      rw [hmain]
      dsimp only
      obtain ⟨l, hl1, hl2⟩ := build_appends env
        { g := g, cache := remove_dir (utimes cache d2 env.now) d2, temp := none,
          log := [] ++ [Event.check_specs d2 true,
            Event.execv (cached_exec_file d2) (cached_exec_file d2 :: argv_plus_1 env rest) false,
            Event.remove_store_dir d2] } rest
      rw [hl1]
      refine ⟨⟨fun _ => hm, fun _ => ⟨cached_exec_file d2, cached_exec_file d2 :: argv_plus_1 env rest,
        false, by simp⟩⟩, ?_, fun hne => absurd hm hne⟩
      intro f a ok he
      simp only [List.nil_append, List.mem_append, List.mem_cons, List.mem_singleton,
        List.not_mem_nil, or_false] at he
      rcases he with (he | he | he) | he
      · cases he
      · exact (Event.execv.inj he).1
      · cases he
      · exact absurd rfl (not_execv_of_stage (hl2 _ he) f a ok)
  · -- anything else in the slot
    have hcs0 : check_specs cache d g = some false := by rw [hcs]; simp [hm]
    have hu : use_cache env { g := g, cache := cache, temp := none, log := [] } rest =
        .ok { g := g, cache := cache, temp := none, log := [Event.check_specs d false] } := by
      simp only [use_cache, hslot, hcs0, State.note, List.nil_append]
    rw [hu] at hmain
    dsimp only at hmain
    refine ⟨⟨?_, fun h => absurd h hm⟩, ?_, fun _ => ⟨hcs0, hmain⟩⟩
    · rintro ⟨f, a, ok, he⟩
      rw [hmain] at he
      rcases appends_mem (build_appends env _ rest) he with h1 | h1
      · simp at h1
      · exact absurd rfl (not_execv_of_stage h1 f a ok)
    · intro f a ok he
      rw [hmain] at he
      rcases appends_mem (build_appends env _ rest) he with h1 | h1
      · simp at h1
      · exact absurd rfl (not_execv_of_stage h1 f a ok)

/-- C1 at the command line `C -e "return 2;" foo bar` with its entry cached. -/
theorem C1_cached_iff_specs_equal_witness :
    env_ok.setup_ok = true ∧
    determine_cache_dir env_ok (argv_e.drop 1) = .ok (g_e, [lit "foo", lit "bar"]) ∧
    g_e.store_dir = some (lit "1c4403c0") ∧
    (0 ≤ g_e.spec_size ∧ g_e.spec_size ≤ 65536) ∧
    check_specs [entry_e] (lit "1c4403c0") g_e =
      some (decide (fopen_specs [entry_e] (lit "1c4403c0") = some (spec_bytes g_e))) :=
  ⟨rfl, rfl, rfl, by decide,
    (C1_cached_iff_specs_equal env_ok [entry_e] argv_e g_e [lit "foo", lit "bar"]
      (lit "1c4403c0") rfl rfl rfl (by decide)).1⟩

/-- C2 (cache round trip): let a first invocation compute the slot `d` for a
spec `S` of at most 65536 bytes while the cache holds no entry of that name,
let its compiler write the artifact, and let the artifact run and exit
normally with status `r`.  Then the invocation ends with status `r` and the
cache holds an entry `d` whose `SPECS` bytes are `S`.  A second invocation
with the same command line and the same `stat` results computes the same
slot, passes `check_specs`, and (when `execv` does not fail for outside
reasons) continues as the cached `a.out`, which is started with the strings
that line 589 reads from `argv + 1` on; its log holds no compiler call. -/
theorem C2_round_trip (env1 env2 : Env) (cache : Cache) (argv : List CStr)
    (g : Globals) (rest : List CStr) (d : CStr) (a : List CStr) (r : Nat)
    (hd : determine_cache_dir env1 (argv.drop 1) = .ok (g, rest))
    (hslot : g.store_dir = some d)
    (hsize : 0 ≤ g.spec_size ∧ g.spec_size ≤ 65536)
    (hfree : lookup cache d = none)
    (hrun : Event.run a (Proc.exited r) ∈ (main env1 cache argv).2.log)
    (hout : env1.cc_out.isSome)
    (hstat : env2.stat = env1.stat) (hw : env2.ulong_bits = env1.ulong_bits)
    (hsetup : env2.setup_ok = true) (hexec : env2.execv_ok = true) :
    (main env1 cache argv).1 = Exit.code r ∧
    Event.rename d true ∈ (main env1 cache argv).2.log ∧
    fopen_specs (main env1 cache argv).2.cache d = some (spec_bytes g) ∧
    determine_cache_dir env2 (argv.drop 1) = .ok (g, rest) ∧
    check_specs (main env1 cache argv).2.cache d g = some true ∧
    (main env2 (main env1 cache argv).2.cache argv).1 =
      Exit.execv (cached_exec_file d) (cached_exec_file d :: argv_plus_1 env2 rest) ∧
    (∀ gcc res, Event.compile gcc res ∉ (main env2 (main env1 cache argv).2.cache argv).2.log) := by
  have hok := (determine_cache_dir_ok env1 _ g rest hd).1
  have hlen : (g.spec.length : Int) = g.spec_size := by
    rcases hok with h | ⟨_, _, h⟩
    · omega
    · exact h
  have hd2 : determine_cache_dir env2 (argv.drop 1) = .ok (g, rest) := by
    rw [determine_cache_dir_congr env1 env2 _ hstat hw]; exact hd
  -- the first invocation reaches `publish` with the slot still free
  obtain ⟨g0, rest0, s1, t, hd0, hu, hm, t1, t2, t3, t4, t5, _, t7, _, _⟩ :=
    main_reach_publish env1 cache argv a r hrun
  rw [hd] at hd0
  obtain ⟨rfl, rfl⟩ : g = g0 ∧ rest = rest0 :=
    ⟨(Prod.mk.inj (Except.ok.inj hd0)).1, (Prod.mk.inj (Except.ok.inj hd0)).2⟩
  have hfo : fopen_specs cache d = none := by simp only [fopen_specs, hfree]
  have hcs0 : check_specs cache d g = some false := by
    rw [check_specs_eq cache d g hsize.1 hlen, hfo]; simp
  have hu1 : use_cache env1 { g := g, cache := cache, temp := none, log := [] } rest =
      .ok { g := g, cache := cache, temp := none, log := [Event.check_specs d false] } := by
    simp only [use_cache, hslot, hcs0, State.note, List.nil_append]
  rw [hu1] at hu
  have hs1 := (Except.ok.inj hu).symm
  subst hs1
  dsimp only at t1
  obtain ⟨ws, hws, hwd, hwa⟩ := t7 hout
  have hpub := publish_free env1 t r d ws (t2.trans hslot) hws (by rw [t4]; exact hsize.1)
    (by rw [t1]; exact hfree)
  have hsb : spec_bytes t.g = spec_bytes g := by unfold spec_bytes; rw [t3, t4]
  obtain ⟨e1, e2, _, e4, e5⟩ := published_facts ws t.g d
  have hfree2 : lookup (update_cache t.cache) d = none := by
    rw [t1]; exact lookup_none_of_subset hfree (update_cache_subset cache)
  have hlk := lookup_insert_at (update_cache t.cache) env1.rename_pos (published ws t.g d) d
    hfree2 e1
  rw [hm, hpub]
  dsimp only
  -- the second invocation finds the entry
  obtain ⟨hcs1, hhit⟩ := use_cache_hit env2 _ g rest d (published ws t.g d) hslot hsize.1 hlen
    hlk (e2.trans hwd) (by rw [e4, hsb]) (by rw [e5]; exact hwa) hexec
  have hmain2 := main_eq env2 (insert_at (update_cache t.cache) env1.rename_pos
    (published ws t.g d)) argv g rest hsetup hd2
  rw [hhit] at hmain2
  dsimp only at hmain2
  refine ⟨rfl, by simp, ?_, hd2, hcs1, ?_, ?_⟩
  · simp only [fopen_specs, hlk, e2, hwd, if_true, e4, hsb]
  · rw [hmain2]
  · intro gcc res hmem
    rw [hmain2] at hmem
    simp at hmem

/-- C2 at the command line `C -e "return 2;"` (no user arguments) on a cache
without entries: the second invocation continues as the cached `a.out`, which
line 589 starts with the environment string of `env_ok` as its argument. -/
theorem C2_round_trip_witness :
    determine_cache_dir env_ok (argv_e0.drop 1) = .ok (g_e, []) ∧
    lookup [] (lit "1c4403c0") = none ∧
    Event.run [lit "/tmp/00000007/a.out"] (Proc.exited 2) ∈ (main env_ok [] argv_e0).2.log ∧
    (main env_ok (main env_ok [] argv_e0).2.cache argv_e0).1 =
      Exit.execv (lit "/cache/1c4403c0/a.out")
        [lit "/cache/1c4403c0/a.out", lit "HOME=/root"] :=
  ⟨rfl, rfl, by decide,
    (C2_round_trip env_ok env_ok [] argv_e0 g_e [] (lit "1c4403c0")
      [lit "/tmp/00000007/a.out"] 2 rfl rfl (by decide) rfl (by decide)
      rfl rfl rfl rfl rfl).2.2.2.2.2.1⟩

/-- C3, the code at the failing input `C -e <expression of 65533 bytes>`: the
spec needs 65537 bytes, `add_spec` sets `spec_size` to -1, and still the slot
`/cache/00000001` is computed and `check_specs` is run on it. -/
theorem C3_oversized_spec_is_looked_up :
    determine_cache_dir env_ok (argv_big.drop 1) =
      .ok (g_oversized (List.replicate 65533 97), []) ∧
    (g_oversized (List.replicate 65533 97)).spec_size = -1 ∧
    (g_oversized (List.replicate 65533 97)).store_dir = some (lit "00000001") ∧
    Event.check_specs (lit "00000001") false ∈ (main env_ok [] argv_big).2.log := by
  have hd : determine_cache_dir env_ok (argv_big.drop 1) =
      .ok (g_oversized (List.replicate 65533 97), []) :=
    determine_cache_dir_oversized env_ok _ (by decide) (by rw [List.length_replicate])
  refine ⟨hd, rfl, rfl, ?_⟩
  have hm := main_eq env_ok [] argv_big _ _ rfl hd
  have hu : use_cache env_ok
      { g := g_oversized (List.replicate 65533 97), cache := [], temp := none, log := [] } [] =
      .ok { g := g_oversized (List.replicate 65533 97), cache := [], temp := none,
            log := [Event.check_specs (lit "00000001") false] } := rfl
  rw [hu] at hm
  dsimp only at hm
  rw [hm]
  obtain ⟨l, hl, _⟩ := build_appends env_ok
    { g := g_oversized (List.replicate 65533 97), cache := [], temp := none,
      log := [Event.check_specs (lit "00000001") false] } []
  rw [hl]
  simp

/-- C4: for every byte sequence `b[0..n-1]` held in the spec buffer
(`0 <= n <= 65536`, every byte below 256) and `unsigned long` of at least 32
bits, the key computed by `build_store_dir` is the 32-bit value
`s2 * 2^16 + s1` with `s1 = (1 + sum of b[i]) mod 65521` and
`s2 = (n + sum of (n - i) * b[i]) mod 65521`; the slot is named by the
hexadecimal text of that key, so it depends on the byte sequence alone. -/
theorem C4_store_key (w : Nat) (hw : 32 ≤ w) (b : List Nat) (hn : b.length ≤ 65536)
    (hbyte : ∀ x ∈ b, x < 256) (g : Globals) (hspec : g.spec = b)
    (hsize : g.spec_size = (b.length : Int)) :
    store_key w g =
        ((b.length + ∑ i ∈ Finset.range b.length, (b.length - i) * b.getD i 0) % 65521) * 2 ^ 16
          + (1 + b.sum) % 65521
      ∧ store_key w g < 2 ^ 32
      ∧ (build_store_dir w g).store_dir = some (hex8 (store_key w g)) := by
  have hp := pow_ulong_ge hw
  subst hspec
  have hsb : spec_bytes g = g.spec := by
    unfold spec_bytes
    apply List.take_of_length_le
    omega
  have hB : BASE = 65521 := rfl
  have a1 : (1 + g.spec.sum) % 65521 < 65521 := Nat.mod_lt _ (by decide)
  have a2 : (g.spec.length + ∑ i ∈ Finset.range g.spec.length,
      (g.spec.length - i) * g.spec.getD i 0) % 65521 < 65521 := Nat.mod_lt _ (by decide)
  have hk : store_key w g =
      ((g.spec.length + ∑ i ∈ Finset.range g.spec.length,
            (g.spec.length - i) * g.spec.getD i 0) % 65521) * 2 ^ 16
          + (1 + g.spec.sum) % 65521 := by
    unfold store_key
    rw [hsb, store_sums_closed w hw g.spec 1 0 (by decide) (by decide), map_mod_bytes _ hbyte,
      weighted_sum_eq_sum]
    simp only [hB, Nat.zero_add, Nat.mul_one]
    rw [Nat.mod_eq_of_lt (a := _ * 2 ^ 16) (by omega), Nat.mod_eq_of_lt (by omega)]
  refine ⟨hk, ?_, rfl⟩
  rw [hk]
  omega

/-- C4 at the three spec bytes 45, 101, 0 and 64-bit `unsigned long`. -/
theorem C4_store_key_witness :
    (32 ≤ 64 ∧ ([45, 101, 0] : List Nat).length ≤ 65536 ∧ ∀ x ∈ ([45, 101, 0] : List Nat), x < 256) ∧
    store_key 64 g_small < 2 ^ 32 :=
  ⟨by decide,
    (C4_store_key 64 (by decide) [45, 101, 0] (by decide) (by decide) g_small rfl rfl).2.1⟩

/-- C5 (eviction bound, capacity `N = FILES_PER_CACHEDIR = 128`): start from
a cache root without directories and commit `N + k` workspaces one after
another, each commit being `update_cache` followed by the rename of the
workspace into its slot, with strictly increasing modification times and
every rename succeeding.  Then the cache root holds exactly `N` directories,
and they are the entries of the last `N` commits. -/
theorem C5_eviction_bound (c0 : Cache) (ks : List Commit)
    (hempty : dirs c0 = [])
    (hws : ∀ k ∈ ks, k.ws.is_dir = true ∧ k.ws.files ≠ [])
    (hmt : ks.Pairwise (fun a b => a.ws.st_mtime < b.ws.st_mtime))
    (hok : all_renamed c0 ks = true)
    (hlen : FILES_PER_CACHEDIR ≤ ks.length) :
    (dirs (commit_all c0 ks)).length = FILES_PER_CACHEDIR ∧
    (dirs (commit_all c0 ks)).Perm
      ((ks.drop (ks.length - FILES_PER_CACHEDIR)).map entry_of) := by
  have h0 : committed c0 [] := by
    refine ⟨?_, ?_, ?_⟩
    · rw [hempty]; exact List.Perm.refl _
    · rw [hempty]; exact List.nodup_nil
    · intro x hx; rw [hempty] at hx; cases hx
  have hs : (([] : List Dirent) ++ ks.map entry_of).Pairwise
      (fun (a b : Dirent) => a.st_mtime < b.st_mtime) := by
    rw [List.nil_append, List.pairwise_map]
    exact hmt
  obtain ⟨hperm, _, _⟩ := commit_all_committed ks c0 [] h0 hs hws hok
  rw [List.nil_append] at hperm
  have hl : lastN FILES_PER_CACHEDIR (ks.map entry_of) =
      (ks.drop (ks.length - FILES_PER_CACHEDIR)).map entry_of := by
    unfold lastN
    rw [List.length_map, List.map_drop]
  rw [hl] at hperm
  refine ⟨?_, hperm⟩
  rw [hperm.length_eq, List.length_map, List.length_drop]
  omega

/-- C5 at 130 commits on a cache root that holds `.` and `..` only. -/
theorem C5_eviction_bound_witness :
    (dirs cache_empty = [] ∧ all_renamed cache_empty commits_130 = true ∧
      FILES_PER_CACHEDIR ≤ commits_130.length) ∧
    (dirs (commit_all cache_empty commits_130)).length = FILES_PER_CACHEDIR :=
  ⟨⟨by decide, by decide!, by decide⟩,
    (C5_eviction_bound cache_empty commits_130 (by decide) (by decide) (by decide)
      (by decide!) (by decide)).1⟩

/-- C6, counterexample: the cache root holds 129 directories and the oldest
(modification time 1) is the last one `readdir` returns; the first directory
`update_cache` removes is `00000000`, of modification time 2, at a moment when
the older directory `00000080` is present. -/
theorem C6_counterexample :
    (evictions cache_129).head? = some (hex8 0, cache_129) ∧
    (lookup cache_129 (hex8 0)).map (fun e => (e.is_dir, e.st_mtime)) = some (true, 2) ∧
    (lookup cache_129 (hex8 128)).map (fun e => (e.is_dir, e.st_mtime)) = some (true, 1) := by
  decide

/-- C6, amended: every directory `update_cache` removes is, in the listing
`l` of the moment of its removal, a directory of the smallest modification
time among the first `FILES_PER_CACHEDIR` directories in `readdir` order
(`.`, `..` and what is not a directory do not count); there are at least that
many directories then, and when there are exactly that many the removed one is
of the smallest modification time among all directories present. -/
theorem C6_victim_is_oldest_scanned (c : Cache) (v : CStr) (l : Cache)
    (h : (v, l) ∈ evictions c) :
    FILES_PER_CACHEDIR ≤ (dirs l).length ∧
    ∃ e ∈ (dirs l).take FILES_PER_CACHEDIR, e.d_name = v ∧
      (∀ x ∈ (dirs l).take FILES_PER_CACHEDIR, e.st_mtime ≤ x.st_mtime) ∧
      ((dirs l).length = FILES_PER_CACHEDIR → ∀ x ∈ dirs l, e.st_mtime ≤ x.st_mtime) := by
  obtain ⟨more, hs⟩ := evictions_scan FILES_PER_CACHEDIR _ c (v, l) h
  obtain ⟨hlen, e, he, hv, hmin⟩ := scan_victim FILES_PER_CACHEDIR (by decide) l v more hs
  refine ⟨hlen, e, he, hv, hmin, ?_⟩
  intro heq x hx
  apply hmin
  rw [← heq, List.take_length]
  exact hx

/-- C6, the amended claim at the cache root of 129 directories. -/
theorem C6_victim_is_oldest_scanned_witness :
    (hex8 0, cache_129) ∈ evictions cache_129 ∧
    FILES_PER_CACHEDIR ≤ (dirs cache_129).length :=
  ⟨by decide, (C6_victim_is_oldest_scanned cache_129 (hex8 0) cache_129 (by decide)).1⟩

/-- C7, counterexample: the cache holds the entry of the command line
`C -e "return 2;" foo bar`, `check_specs` returns 1 for it, and `execv` of its
`a.out` fails; when the use of the cache ends the entry is gone. -/
theorem C7_counterexample :
    determine_cache_dir env_ok (argv_e.drop 1) = .ok (g_e, [lit "foo", lit "bar"]) ∧
    lookup [entry_e] (lit "1c4403c0") = some entry_e ∧
    check_specs [entry_e] (lit "1c4403c0") g_e = some true ∧
    (after_use_cache { env_ok with execv_ok := false }
      { g := g_e, cache := [entry_e], temp := none, log := [] } [lit "foo", lit "bar"]).cache
      = [] :=
  ⟨rfl, by decide, by decide, by decide⟩

/-- C7, amended.  The use of the cache (lines 583-594) creates no entry and
leaves every entry other than the slot as it is.  Without a slot, and with a
slot that `check_specs` does not verify, the cache is left as it is.  A
verified slot gets the current time as its modification time; when `execv`
then succeeds nothing else changes, and when `execv` fails the slot is
removed by `remove_dir(store_dir)`.  After that the listing changes only in
lines 704-705: the listing in which `main` ends is the one it started on, or
the one the use of the cache left, or that one after `update_cache`, or that
one after `update_cache` and a successful `rename(temp_dir, store_dir)`.
`update_cache` creates no entry and removes only directories it evicts; a
rename removes only directories named as the slot, and only when the entry
found under that name is an empty directory, which the workspace replaces. -/
theorem C7_read_path (env : Env) (s : State) (argv : List CStr) (cache : Cache)
    (args : List CStr) :
    stems s.cache (after_use_cache env s argv).cache ∧
    (∀ e ∈ s.cache, s.g.store_dir ≠ some e.d_name → e ∈ (after_use_cache env s argv).cache) ∧
    (s.g.store_dir = none → (after_use_cache env s argv).cache = s.cache) ∧
    (∀ d, s.g.store_dir = some d → check_specs s.cache d s.g ≠ some true →
      (after_use_cache env s argv).cache = s.cache) ∧
    (∀ d, s.g.store_dir = some d → check_specs s.cache d s.g = some true →
      (has_a_out (utimes s.cache d env.now) d && env.execv_ok) = true →
      (after_use_cache env s argv).cache = utimes s.cache d env.now) ∧
    (∀ d, s.g.store_dir = some d → check_specs s.cache d s.g = some true →
      (has_a_out (utimes s.cache d env.now) d && env.execv_ok) = false →
      (after_use_cache env s argv).cache = remove_dir (utimes s.cache d env.now) d) ∧
    ((main env cache args).2.cache = cache ∨
      ∃ g rest c1, determine_cache_dir env (args.drop 1) = .ok (g, rest) ∧
        c1 = (after_use_cache env { g := g, cache := cache, temp := none, log := [] }
          rest).cache ∧
        ((main env cache args).2.cache = c1 ∨
          (main env cache args).2.cache = update_cache c1 ∨
          ∃ d ws, g.store_dir = some d ∧
            (rename (update_cache c1) env.rename_pos ws d).2 = true ∧
            (main env cache args).2.cache =
              (rename (update_cache c1) env.rename_pos ws d).1)) ∧
    (∀ (c : Cache), ∀ e ∈ update_cache c, e ∈ c) ∧
    (∀ (c : Cache), ∀ e ∈ c,
      e ∈ update_cache c ∨ (e.is_dir = true ∧ ∃ c2, (e.d_name, c2) ∈ evictions c)) ∧
    (∀ (c : Cache) (pos : Nat) (ws : Dirent) (d : CStr), ∀ e ∈ c,
      e ∈ (rename c pos ws d).1 ∨
        (e.is_dir = true ∧ e.d_name = d ∧
          ∃ e0, lookup c d = some e0 ∧ e0.is_dir = true ∧ e0.files = [])) := by
  obtain ⟨h1, h2, h3, h4, h5, h6⟩ := use_cache_listing env s argv
  refine ⟨h1, h2, h3, h4, h5, h6, ?_, update_cache_subset, update_cache_removed,
    rename_removed⟩
  rcases main_cache env cache args with h | ⟨g, rest, hd, hb⟩
  · exact Or.inl h
  · exact Or.inr ⟨g, rest, _, hd, rfl, hb⟩

/-- C8: on the miss path, after a compile that succeeded and an artifact that
ran and exited normally with status `r`, the pipeline ends with status `r`
whether the rename succeeds or fails.  When the rename fails, the slot is
occupied by an entry that is not an empty directory; that entry is the one
the cache held at the start and it is still there, unchanged, at the end;
the workspace is removed unless `keep_files` is set, in which case it
stays.  (The cache listing is taken with distinct names.) -/
theorem C8_lost_commit (env : Env) (cache : Cache) (argv : List CStr) (a : List CStr)
    (r : Nat) (d : CStr) (ok : Bool) (hwf : distinct_names cache)
    (hrun : Event.run a (Proc.exited r) ∈ (main env cache argv).2.log)
    (hren : Event.rename d ok ∈ (main env cache argv).2.log) :
    (main env cache argv).1 = Exit.code r ∧
    (ok = false →
      (∃ e, lookup cache d = some e ∧ lookup (main env cache argv).2.cache d = some e ∧
        ¬ (e.is_dir = true ∧ e.files = [])) ∧
      ((main env cache argv).2.g.keep_files = false → (main env cache argv).2.temp = none) ∧
      ((main env cache argv).2.g.keep_files = true → (main env cache argv).2.temp.isSome) ∧
      ∀ e ∈ (main env cache argv).2.cache, e ∈ cache) := by
  obtain ⟨g, rest, s1, t, hd, hu, hm, t1, t2, t3, t4, t5, t6, t7, t8, _⟩ :=
    main_reach_publish env cache argv a r hrun
  rw [hm] at hren ⊢
  have hnr : ∀ x y, Event.rename x y ∉ t.log :=
    fun x y => staged_not_mem t8 _ (by simp [Event.stage])
  rcases publish_cases env t r with ⟨_, h⟩ | ⟨d2, _, _, h⟩ | ⟨d2, ws, _, _, _, h⟩ |
      ⟨d2, ws, h0, h1, _, _, h⟩ | ⟨d2, ws, h0, h1, _, h3, h⟩
  · rw [h] at hren
    rw [cleanup_log] at hren
    exact absurd hren (hnr _ _)
  · rw [h] at hren
    simp only [cmd_error, cleanup_log] at hren
    exact absurd hren (hnr _ _)
  · rw [h] at hren
    rw [write_temp_log] at hren
    exact absurd hren (hnr _ _)
  · rw [h] at hren ⊢
    refine ⟨rfl, ?_⟩
    intro hok
    subst hok
    dsimp only at hren
    rcases List.mem_append.1 hren with h4 | h4
    · exact absurd h4 (hnr _ _)
    · simp at h4
  · rw [h] at hren ⊢
    refine ⟨rfl, ?_⟩
    intro _
    have hdd : d2 = d := by
      rw [cleanup_log] at hren
      rcases List.mem_append.1 hren with h4 | h4
      · exact absurd h4 (hnr _ _)
      · simp only [List.mem_cons, List.mem_singleton, List.not_mem_nil, or_false] at h4
        rcases h4 with h4 | h4 | h4
        · cases h4
        · cases h4
        · exact (Event.rename.inj h4).1.symm
    subst hdd
    -- the slot is occupied in the listing `update_cache` left
    have hocc : ∃ e, lookup (update_cache t.cache) d2 = some e ∧
        ¬ (e.is_dir = true ∧ e.files = []) := by
      unfold rename at h3
      cases hl : lookup (update_cache t.cache) d2 with
      | none => rw [hl] at h3; cases h3
      | some e =>
        rw [hl] at h3
        refine ⟨e, rfl, ?_⟩
        intro hemp
        simp only [hemp, and_self, if_true] at h3
        cases h3
    obtain ⟨e, hl, hne⟩ := hocc
    obtain ⟨hen, hem⟩ := lookup_some_name hl
    have hem1 : e ∈ s1.cache := by rw [← t1]; exact update_cache_subset _ e hem
    -- the read path left the cache alone
    have hs1 : s1.cache = cache := by
      rcases use_cache_cache env _ s1 rest hu with h5 | ⟨d3, h5, h6, h7⟩
      · exact h5
      · dsimp only at h5 h6 h7
        have hdd : d3 = d2 := by
          rw [t2, h5] at h0
          exact Option.some.inj h0
        subst hdd
        have := lookup_after_remove hwf env.now h6
        rw [← h7, lookup_none_iff] at this
        exact absurd hen (this e hem1)
    rw [hs1] at hem1
    refine ⟨⟨e, ?_, ?_, hne⟩, ?_, ?_, ?_⟩
    · rw [← hen]; exact lookup_of_mem hwf hem1
    · rw [cleanup_cache]; exact hl
    · intro hk
      rw [cleanup_g] at hk
      exact cleanup_temp_none _ hk t6
    · intro hk
      rw [cleanup_g] at hk
      rw [cleanup_keep _ hk]
      rfl
    · intro x hx
      rw [cleanup_cache] at hx
      have := update_cache_subset _ x hx
      rw [t1, hs1] at this
      exact this

/-- C8 at the command line `C -e "return 2;" foo bar` when another spec
occupies its slot. -/
theorem C8_lost_commit_witness :
    Event.run [lit "/tmp/00000007/a.out", lit "foo", lit "bar"] (Proc.exited 2) ∈
      (main env_ok [entry_other] argv_e).2.log ∧
    Event.rename (lit "1c4403c0") false ∈ (main env_ok [entry_other] argv_e).2.log ∧
    (main env_ok [entry_other] argv_e).1 = Exit.code 2 :=
  ⟨by decide, by decide,
    (C8_lost_commit env_ok [entry_other] argv_e
      [lit "/tmp/00000007/a.out", lit "foo", lit "bar"] 2 (lit "1c4403c0") false
      (by unfold distinct_names; decide) (by decide) (by decide)).1⟩

/-- C9: for every invocation whose compiler run exits with a non-zero code
`r`, the pipeline ends with exit code `r`; the artifact is never run; nothing
is published (`save_specs`, `update_cache` and the rename are not reached);
the workspace is removed unless retention was requested; and every entry of
the final cache is an entry the cache held before, with its content: the
failed build created and replaced nothing. -/
theorem C9_compiler_failure (env : Env) (cache : Cache) (argv : List CStr)
    (gcc : List CStr) (r : Nat)
    (h : Event.compile gcc (Proc.exited r) ∈ (main env cache argv).2.log) (hr : r ≠ 0) :
    (main env cache argv).1 = Exit.code r ∧
    (∀ a res, Event.run a res ∉ (main env cache argv).2.log) ∧
    Event.save_specs ∉ (main env cache argv).2.log ∧
    Event.update_cache ∉ (main env cache argv).2.log ∧
    (∀ d ok, Event.rename d ok ∉ (main env cache argv).2.log) ∧
    ((main env cache argv).2.g.keep_files = false → (main env cache argv).2.temp = none) ∧
    stems cache (main env cache argv).2.cache := by
  rcases main_cases env cache argv with hst | ⟨g, rest, s1, s2, a2, _, hd, hu, hp, hdg, hm⟩
  · exact absurd h (staged_not_mem hst _ (by simp [Event.stage]))
  · rw [hm] at h ⊢
    have hus := use_cache_staged env { g := g, cache := cache, temp := none, log := [] } rest
      (fun e he => by simp at he)
    rw [hu] at hus
    have hstem := use_cache_stems env _ s1 rest hu
    have hpp := prepare_files_ok env s1 rest
    rw [hp] at hpp
    obtain ⟨p1, p2, p3, p4, p5, p6, p7⟩ := hpp
    have hs2 : staged 1 s2.log := by
      rw [p1]
      exact staged_append (staged_mono hus.1 (Nat.zero_le 1)) _ (Nat.le_refl 1)
    obtain ⟨l, hl1, hl2⟩ := from_compile_log env s2 a2 hdg
    -- the compiler event of the log is the one of the hypothesis
    have hcc : env.cc = Proc.exited r := by
      rw [hl1] at h
      rcases List.mem_append.1 h with h1 | h1
      · exact absurd h1 (staged_not_mem hs2 _ (by simp [Event.stage]))
      · rcases List.mem_cons.1 h1 with h2 | h2
        · exact (Event.compile.inj h2).2.symm
        · exact absurd (hl2 _ h2) (by simp [Event.stage])
    have hc := compile_ok env s2 hdg
    unfold from_compile at h ⊢
    cases hcr : compile env s2 with
    | ok s3 =>
      rw [hcr] at hc
      have hc1 : env.cc = Proc.exited 0 := hc.1
      rw [hcc] at hc1
      exact absurd (Proc.exited.inj hc1) hr
    | error o =>
      rw [hcr] at hc
      dsimp only
      obtain ⟨c1, c2, c3, c4, c5, c6⟩ := hc
      have hlog : staged 2 o.2.log := by
        rw [c1]
        exact staged_append (staged_mono hs2 (by decide)) _ (Nat.le_refl 2)
      refine ⟨c4 r hcc hr, ?_, ?_, ?_, ?_, ?_, ?_⟩
      · intro a res
        exact staged_not_mem hlog _ (by simp [Event.stage])
      · exact staged_not_mem hlog _ (by simp [Event.stage])
      · exact staged_not_mem hlog _ (by simp [Event.stage])
      · intro d ok
        exact staged_not_mem hlog _ (by simp [Event.stage])
      · intro hk
        rw [c3] at hk
        exact c5 r hcc hk p7
      · rw [c2, p2]
        exact hstem

/-- C9 at the command line `C -e "return 2;" foo bar` with a compiler that
exits with status 1. -/
theorem C9_compiler_failure_witness :
    Event.compile gcc_e (Proc.exited 1) ∈
      (main { env_ok with cc := Proc.exited 1 } [] argv_e).2.log ∧
    (main { env_ok with cc := Proc.exited 1 } [] argv_e).1 = Exit.code 1 :=
  ⟨by decide,
    (C9_compiler_failure { env_ok with cc := Proc.exited 1 } [] argv_e gcc_e 1 (by decide)
      (by decide)).1⟩

/-- C10, the code at the failing input `C -e "return 2;" foo bar`: on a
verified cache hit the cached artifact is started with the single user
argument `bar`, while the freshly built artifact of the same command line is
run with `foo bar`. -/
theorem C10_hit_drops_first_argument :
    (main env_ok [entry_e] argv_e).1 =
      Exit.execv (lit "/cache/1c4403c0/a.out") [lit "/cache/1c4403c0/a.out", lit "bar"] ∧
    (main env_ok [] argv_e).2.log =
      [Event.check_specs (lit "1c4403c0") false, Event.make_temp_dir,
       Event.compile gcc_e (Proc.exited 0),
       Event.run [lit "/tmp/00000007/a.out", lit "foo", lit "bar"] (Proc.exited 2),
       Event.save_specs, Event.update_cache, Event.rename (lit "1c4403c0") true] := by
  decide

end LargeC
